import Mathlib

/-!
Verification development for the `smtp-client` crate: a shallow embedding of
the SMTP session engine (reply parser, command codec, capability handshake,
mail transaction, retry loop, address validator) together with theorems about
the claims of the specification.  Definitions are translated from the Rust
sources under `src/`: `src/lib.rs`, `src/connection/mod.rs`,
`src/connection/parser.rs`, `src/connection/protocol.rs`, `src/message.rs`.
Bytes on the wire are modelled as `Char` values (Latin-1, one byte each);
strings are `List Char`.
-/

namespace Smtp

deriving instance DecidableEq for Except

/-- Error taxonomy, from `SmtpErr` in `src/lib.rs` (lines 47-60).  The variant
`MIMENotSupported` is returned by `try_send_mail` in `src/connection/mod.rs`
(line 344). -/
inductive SmtpErr where
  | Protocol
  | ServerUnreachable
  | ServerUnavailable
  | InvalidServer
  | Network
  | InvalidCred
  | Policy
  | DNS
  | MailBoxName (addr : List Char)
  | Forward (t : List Char)
  | File (p : List Char)
  | MIMENotSupported
deriving DecidableEq, Repr

/-- `SmtpErr::retriable` from `src/lib.rs` lines 62-72. -/
def SmtpErr.retriable : SmtpErr → Bool
  | .Network => true
  | .DNS => true
  | .ServerUnavailable => true
  | .ServerUnreachable => true
  | _ => false

/-- Tri-state capability flag, `Support` in `src/lib.rs` lines 277-282. -/
inductive Support where
  | Supported
  | NotSupported
  | Unknown
deriving DecidableEq, Repr

/-- Per-session capability record, `ServerMeta` as used by
`src/connection/mod.rs` (fields `tls`, `eight_bit_mime`, `pipelining`,
`auth_plain`, `auth_login`). -/
structure ServerMeta where
  auth_plain : Support
  auth_login : Support
  tls : Support
  pipelining : Support
  eight_bit_mime : Support
deriving DecidableEq, Repr

/-- `ServerMeta::new` from `src/lib.rs`: all flags `Unknown`. -/
def ServerMeta.new : ServerMeta :=
  { auth_plain := .Unknown, auth_login := .Unknown, tls := .Unknown,
    pipelining := .Unknown, eight_bit_mime := .Unknown }

/-- The closed enumeration of recognized SMTP status codes, `StatusCode` in
`src/connection/protocol.rs` lines 5-39. -/
inductive StatusCode where
  | SystemStatus
  | HelpMessage
  | ServiceReady
  | ServiceClosingChannel
  | AuthSuccess
  | Okay
  | UserNotLocal
  | CanNotVrfyButWillAttemp
  | StartMailInput
  | ServerChallenge
  | ServiceNotAvailable
  | PasswordTransition
  | MailboxUnavailable
  | LocalError
  | InsufficientStorage
  | TempAuthFailure
  | AccomodateParams
  | AuthLineTooLong
  | SyntaxError
  | CommandNotImplemented
  | BadSequence
  | ParamNotImplemented
  | AuthRequired
  | AuthMechWeak
  | AuthInvalidCred
  | AuthEncryptRequired
  | NoAccess
  | UserNotLocalError
  | ExeededAllocation
  | MailBoxNameNotAllowed
  | TransactionFailed
  | ParamsNotRecognized
deriving DecidableEq, Repr

/-- The numeric value of each status code (the enum discriminants in
`src/connection/protocol.rs`). -/
def StatusCode.toNat : StatusCode → Nat
  | .SystemStatus => 211
  | .HelpMessage => 214
  | .ServiceReady => 220
  | .ServiceClosingChannel => 221
  | .AuthSuccess => 235
  | .Okay => 250
  | .UserNotLocal => 251
  | .CanNotVrfyButWillAttemp => 252
  | .StartMailInput => 354
  | .ServerChallenge => 334
  | .ServiceNotAvailable => 421
  | .PasswordTransition => 432
  | .MailboxUnavailable => 450
  | .LocalError => 451
  | .InsufficientStorage => 452
  | .TempAuthFailure => 454
  | .AccomodateParams => 455
  | .AuthLineTooLong => 500
  | .SyntaxError => 501
  | .CommandNotImplemented => 502
  | .BadSequence => 503
  | .ParamNotImplemented => 504
  | .AuthRequired => 530
  | .AuthMechWeak => 534
  | .AuthInvalidCred => 535
  | .AuthEncryptRequired => 538
  | .NoAccess => 550
  | .UserNotLocalError => 551
  | .ExeededAllocation => 552
  | .MailBoxNameNotAllowed => 553
  | .TransactionFailed => 554
  | .ParamsNotRecognized => 555

/-- `status_code` from `src/connection/protocol.rs` lines 41-77: partial map
from a 3-digit number to the recognized code. -/
def statusCode (code : Nat) : Option StatusCode :=
  match code with
  | 211 => some .SystemStatus
  | 214 => some .HelpMessage
  | 220 => some .ServiceReady
  | 221 => some .ServiceClosingChannel
  | 235 => some .AuthSuccess
  | 250 => some .Okay
  | 251 => some .UserNotLocal
  | 252 => some .CanNotVrfyButWillAttemp
  | 334 => some .ServerChallenge
  | 354 => some .StartMailInput
  | 421 => some .ServiceNotAvailable
  | 432 => some .PasswordTransition
  | 450 => some .MailboxUnavailable
  | 451 => some .LocalError
  | 452 => some .InsufficientStorage
  | 454 => some .TempAuthFailure
  | 455 => some .AccomodateParams
  | 500 => some .AuthLineTooLong
  | 501 => some .SyntaxError
  | 502 => some .CommandNotImplemented
  | 503 => some .BadSequence
  | 504 => some .ParamNotImplemented
  | 530 => some .AuthRequired
  | 534 => some .AuthMechWeak
  | 535 => some .AuthInvalidCred
  | 538 => some .AuthEncryptRequired
  | 550 => some .NoAccess
  | 551 => some .UserNotLocalError
  | 552 => some .ExeededAllocation
  | 553 => some .MailBoxNameNotAllowed
  | 554 => some .TransactionFailed
  | 555 => some .ParamsNotRecognized
  | _ => none

/-- The recognized status-code set, as listed in the specification. -/
def recognizedCodes : List Nat :=
  [211, 214, 220, 221, 235, 250, 251, 252, 334, 354, 421, 432, 450, 451, 452,
   454, 455, 500, 501, 502, 503, 504, 530, 534, 535, 538, 550, 551, 552, 553,
   554, 555]

/-- A parsed reply line, `Line` in `src/connection/protocol.rs` lines 79-106. -/
structure Line where
  code : StatusCode
  text : List Char
  last : Bool
deriving DecidableEq, Repr

/-- `Line::expect` from `src/connection/protocol.rs` lines 90-96. -/
def Line.expect (l : Line) (code : StatusCode) : Except SmtpErr Unit :=
  if l.code ≠ code then .error .Protocol else .ok ()

/-- The retry loop shared verbatim by the three public operations `connect`,
`close` and `send_mail` in `src/connection/mod.rs` lines 367-419, modelled
over a programmed sequence of attempt outcomes: on success return `Ok`; on
failure, if the error is retriable and the remaining budget is positive,
decrement the budget and try again, otherwise propagate the error.  `none`
means the programmed sequence was exhausted before the loop returned. -/
def retryRun (attempts : List (Except SmtpErr Unit)) (retries : Nat) :
    Option (Except SmtpErr Unit) :=
  match attempts with
  | [] => none
  | a :: rest =>
    match a with
    | .ok () => some (.ok ())
    | .error e =>
      if e.retriable ∧ retries > 0 then retryRun rest (retries - 1)
      else some (.error e)

/-- Success characterization of the retry loop. -/
lemma retryRun_ok_iff (attempts : List (Except SmtpErr Unit)) (retries : Nat) :
    retryRun attempts retries = some (.ok ()) ↔
      ∃ k, k ≤ retries ∧ attempts.get? k = some (.ok ()) ∧
        ∀ j < k, ∃ e, attempts.get? j = some (.error e) ∧ e.retriable = true := by
  induction attempts generalizing retries with
  | nil => simp [retryRun]
  | cons a rest ih =>
    match a with
    | .ok () =>
      simp only [retryRun]
      constructor
      · intro _
        exact ⟨0, Nat.zero_le _, by simp, by omega⟩
      · intro _; trivial
    | .error e =>
      simp only [retryRun]
      by_cases hc : e.retriable = true ∧ retries > 0
      · rw [if_pos hc, ih]
        constructor
        · rintro ⟨k, hk, hget, hprev⟩
          refine ⟨k + 1, by have := hc.2; omega, by simpa using hget, ?_⟩
          intro j hj
          match j with
          | 0 => exact ⟨e, by simp, hc.1⟩
          | j + 1 =>
            have := hprev j (by omega)
            simpa using this
        · rintro ⟨k, hk, hget, hprev⟩
          match k with
          | 0 => simp at hget
          | k + 1 =>
            refine ⟨k, by omega, by simpa using hget, ?_⟩
            intro j hj
            have := hprev (j + 1) (by omega)
            simpa using this
      · rw [if_neg hc]
        constructor
        · intro h; simp at h
        · rintro ⟨k, hk, hget, hprev⟩
          match k with
          | 0 => simp at hget
          | k + 1 =>
            obtain ⟨e2, he2, hr⟩ := hprev 0 (by omega)
            simp only [List.get?_cons_zero, Option.some.injEq,
              Except.error.injEq] at he2
            subst he2
            exact absurd ⟨hr, by omega⟩ hc

/-- Error characterization of the retry loop. -/
lemma retryRun_error_iff (attempts : List (Except SmtpErr Unit)) (retries : Nat)
    (e : SmtpErr) :
    retryRun attempts retries = some (.error e) ↔
      ∃ k, k ≤ retries ∧ attempts.get? k = some (.error e) ∧
        (e.retriable = false ∨ k = retries) ∧
        ∀ j < k, ∃ e2, attempts.get? j = some (.error e2) ∧ e2.retriable = true := by
  induction attempts generalizing retries with
  | nil => simp [retryRun]
  | cons a rest ih =>
    match a with
    | .ok () =>
      simp only [retryRun]
      constructor
      · intro h; simp at h
      · rintro ⟨k, hk, hget, _, hprev⟩
        match k with
        | 0 => simp at hget
        | k + 1 =>
          obtain ⟨e2, he2, _⟩ := hprev 0 (by omega)
          simp at he2
    | .error e1 =>
      simp only [retryRun]
      by_cases hc : e1.retriable = true ∧ retries > 0
      · rw [if_pos hc, ih]
        constructor
        · rintro ⟨k, hk, hget, hbound, hprev⟩
          refine ⟨k + 1, by have := hc.2; omega, by simpa using hget, ?_, ?_⟩
          · rcases hbound with hb | hb
            · exact Or.inl hb
            · right; have := hc.2; omega
          intro j hj
          match j with
          | 0 => exact ⟨e1, by simp, hc.1⟩
          | j + 1 =>
            have := hprev j (by omega)
            simpa using this
        · rintro ⟨k, hk, hget, hbound, hprev⟩
          match k with
          | 0 =>
            simp only [List.get?_cons_zero, Option.some.injEq,
              Except.error.injEq] at hget
            rcases hbound with hb | hb
            · rw [← hget] at hb
              rw [hc.1] at hb
              exact absurd hb (by simp)
            · exact absurd hb.symm (by have := hc.2; omega)
          | k + 1 =>
            refine ⟨k, by have := hc.2; omega, by simpa using hget, ?_, ?_⟩
            · rcases hbound with hb | hb
              · exact Or.inl hb
              · right; have := hc.2; omega
            intro j hj
            have := hprev (j + 1) (by omega)
            simpa using this
      · rw [if_neg hc]
        constructor
        · intro h
          simp only [Option.some.injEq, Except.error.injEq] at h
          refine ⟨0, Nat.zero_le _, by rw [List.get?_cons_zero, h], ?_, by omega⟩
          by_cases hr : e.retriable = true
          · right
            by_contra hne
            exact hc ⟨h.symm ▸ hr, by omega⟩
          · left; simpa using hr
        · rintro ⟨k, hk, hget, hbound, hprev⟩
          match k with
          | 0 =>
            simp only [List.get?_cons_zero, Option.some.injEq,
              Except.error.injEq] at hget
            subst hget; rfl
          | k + 1 =>
            obtain ⟨e2, he2, hr⟩ := hprev 0 (by omega)
            simp only [List.get?_cons_zero, Option.some.injEq,
              Except.error.injEq] at he2
            subst he2
            exact absurd ⟨hr, by omega⟩ hc

/-- C4: for each public operation (`connect`, `send_mail`, `close`, all three
sharing the retry loop modelled by `retryRun`), given any programmed sequence
of attempt outcomes: the operation returns `Ok` iff some attempt at 0-based
index `k ≤ retries` succeeds and every earlier attempt fails with a retriable
error; it propagates exactly the first error that is non-retriable or that
occurs once the budget of `retries` extra attempts is spent; and the
retriable kinds are exactly `Network`, `DNS`, `ServerUnavailable`,
`ServerUnreachable`. -/
theorem retry_budget_characterization
    (attempts : List (Except SmtpErr Unit)) (retries : Nat) :
    (retryRun attempts retries = some (.ok ()) ↔
      ∃ k, k ≤ retries ∧ attempts.get? k = some (.ok ()) ∧
        ∀ j < k, ∃ e, attempts.get? j = some (.error e) ∧ e.retriable = true)
    ∧ (∀ e, retryRun attempts retries = some (.error e) ↔
      ∃ k, k ≤ retries ∧ attempts.get? k = some (.error e) ∧
        (e.retriable = false ∨ k = retries) ∧
        ∀ j < k, ∃ e2, attempts.get? j = some (.error e2) ∧ e2.retriable = true)
    ∧ (∀ e : SmtpErr, e.retriable = true ↔
        (e = .Network ∨ e = .DNS ∨ e = .ServerUnavailable ∨
         e = .ServerUnreachable)) := by
  refine ⟨retryRun_ok_iff attempts retries, fun e => retryRun_error_iff attempts retries e, ?_⟩
  intro e
  cases e <;> simp [SmtpErr.retriable]

/-- Witness for C4: with a budget of two retries, a run programmed as two
retriable failures followed by a success returns `Ok`. -/
theorem retry_budget_characterization_witness :
    retryRun [.error .Network, .error .DNS, .ok ()] 2 = some (.ok ()) := by
  have h := (retry_budget_characterization [.error .Network, .error .DNS, .ok ()] 2).1
  refine h.mpr ⟨2, le_refl 2, by rfl, ?_⟩
  intro j hj
  match j, hj with
  | 0, _ => exact ⟨.Network, by rfl, by rfl⟩
  | 1, _ => exact ⟨.DNS, by rfl, by rfl⟩

/-! ### Base64 codec

`get_auth_plain` / `get_auth_login` in `src/connection/protocol.rs` lines
153-164 use the `base64` crate's `STANDARD` engine: the standard alphabet
with `=` padding.  `b64encode` is that encoding; `b64decode` is strict
standard decoding, used to state the round-trip law. -/

/-- Character of the standard base64 alphabet at index `n` (`n < 64`). -/
def b64char (n : Nat) : Char :=
  if n < 26 then Char.ofNat (65 + n)
  else if n < 52 then Char.ofNat (97 + (n - 26))
  else if n < 62 then Char.ofNat (48 + (n - 52))
  else if n = 62 then '+'
  else '/'

/-- Index of a character in the standard base64 alphabet. -/
def b64val (c : Char) : Option Nat :=
  if 65 ≤ c.toNat ∧ c.toNat ≤ 90 then some (c.toNat - 65)
  else if 97 ≤ c.toNat ∧ c.toNat ≤ 122 then some (c.toNat - 97 + 26)
  else if 48 ≤ c.toNat ∧ c.toNat ≤ 57 then some (c.toNat - 48 + 52)
  else if c = '+' then some 62
  else if c = '/' then some 63
  else none

/-- Standard base64 encoding with padding of a byte sequence. -/
def b64encode : List Nat → List Char
  | [] => []
  | [a] => [b64char (a / 4), b64char (a % 4 * 16), '=', '=']
  | [a, b] => [b64char (a / 4), b64char (a % 4 * 16 + b / 16),
               b64char (b % 16 * 4), '=']
  | a :: b :: c :: rest =>
      b64char (a / 4) :: b64char (a % 4 * 16 + b / 16) ::
      b64char (b % 16 * 4 + c / 64) :: b64char (c % 64) :: b64encode rest

/-- Strict standard base64 decoding (padding only at the very end). -/
def b64decode : List Char → Option (List Nat)
  | [] => some []
  | c1 :: c2 :: c3 :: c4 :: rest =>
    match b64val c1, b64val c2 with
    | some v1, some v2 =>
      if c3 = '=' then
        if c4 = '=' ∧ rest = [] then some [v1 * 4 + v2 / 16] else none
      else
        match b64val c3 with
        | some v3 =>
          if c4 = '=' then
            if rest = [] then some [v1 * 4 + v2 / 16, v2 % 16 * 16 + v3 / 4]
            else none
          else
            match b64val c4 with
            | some v4 =>
              (b64decode rest).map
                (fun tail => (v1 * 4 + v2 / 16) :: (v2 % 16 * 16 + v3 / 4) ::
                  (v3 % 4 * 64 + v4) :: tail)
            | none => none
        | none => none
    | _, _ => none
  | _ => none

lemma b64val_b64char : ∀ n, n < 64 → b64val (b64char n) = some n := by decide

lemma b64char_ne_pad : ∀ n, n < 64 → b64char n ≠ '=' := by decide

/-- Base64 decode is a left inverse of encode on byte sequences. -/
theorem b64_roundtrip (l : List Nat) (hl : ∀ x ∈ l, x < 256) :
    b64decode (b64encode l) = some l := by
  induction l using b64encode.induct with
  | case1 => simp [b64encode, b64decode]
  | case2 a =>
    have ha : a < 256 := hl a (by simp)
    have h1 : a / 4 < 64 := by omega
    have h2 : a % 4 * 16 < 64 := by omega
    simp [b64encode, b64decode, b64val_b64char _ h1, b64val_b64char _ h2]
    omega
  | case3 a b =>
    have ha : a < 256 := hl a (by simp)
    have hb : b < 256 := hl b (by simp)
    have h1 : a / 4 < 64 := by omega
    have h2 : a % 4 * 16 + b / 16 < 64 := by omega
    have h3 : b % 16 * 4 < 64 := by omega
    simp [b64encode, b64decode, b64val_b64char _ h1, b64val_b64char _ h2,
      b64val_b64char _ h3, b64char_ne_pad _ h3]
    omega
  | case4 a b c rest ih =>
    have ha : a < 256 := hl a (by simp)
    have hb : b < 256 := hl b (by simp)
    have hc : c < 256 := hl c (by simp)
    have hrest : ∀ x ∈ rest, x < 256 := fun x hx => hl x (by simp [hx])
    have h1 : a / 4 < 64 := by omega
    have h2 : a % 4 * 16 + b / 16 < 64 := by omega
    have h3 : b % 16 * 4 + c / 64 < 64 := by omega
    have h4 : c % 64 < 64 := by omega
    simp [b64encode, b64decode, b64val_b64char _ h1, b64val_b64char _ h2,
      b64val_b64char _ h3, b64val_b64char _ h4, b64char_ne_pad _ h3,
      b64char_ne_pad _ h4, ih hrest]
    omega

/-- Rust `c as u8`: the unicode scalar value truncated to one byte. -/
def to8 (c : Char) : Nat := c.toNat % 256

/-- `get_auth_plain` from `src/connection/protocol.rs` lines 153-160: base64
of the byte sequence `NUL username NUL password`. -/
def getAuthPlain (username password : List Char) : List Char :=
  b64encode (0 :: username.map to8 ++ 0 :: password.map to8)

/-- `get_auth_login` from `src/connection/protocol.rs` lines 162-164. -/
def getAuthLogin (token : List Char) : List Char :=
  b64encode (token.map to8)

/-- C6: the AUTH PLAIN token is the standard base64 encoding (with padding)
of `NUL ++ u ++ NUL ++ p`; decoding the token yields exactly that byte
sequence, and encode-then-decode is the identity on any byte payload. -/
theorem auth_plain_base64 :
    (∀ u p : List Char,
      getAuthPlain u p = b64encode (0 :: u.map to8 ++ 0 :: p.map to8) ∧
      b64decode (getAuthPlain u p) = some (0 :: u.map to8 ++ 0 :: p.map to8))
    ∧ (∀ payload : List Nat, (∀ x ∈ payload, x < 256) →
        b64decode (b64encode payload) = some payload) := by
  constructor
  · intro u p
    refine ⟨rfl, b64_roundtrip _ ?_⟩
    intro x hx
    rcases List.mem_cons.mp hx with h0 | hrest
    · omega
    · rcases List.mem_append.mp hrest with hu | hp
      · obtain ⟨c, _, hc⟩ := List.mem_map.mp hu
        have : to8 c < 256 := Nat.mod_lt _ (by norm_num)
        omega
      · rcases List.mem_cons.mp hp with h0 | hp2
        · omega
        · obtain ⟨c, _, hc⟩ := List.mem_map.mp hp2
          have : to8 c < 256 := Nat.mod_lt _ (by norm_num)
          omega
  · exact fun payload h => b64_roundtrip payload h

/-- Witness for C6 at the specification's own example: username `user`,
password `pass` produce the token `AHVzZXIAcGFzcw==`, which decodes to
`NUL user NUL pass`. -/
theorem auth_plain_base64_witness :
    getAuthPlain "user".data "pass".data = "AHVzZXIAcGFzcw==".data ∧
    b64decode (getAuthPlain "user".data "pass".data) =
      some [0, 117, 115, 101, 114, 0, 112, 97, 115, 115] := by
  constructor
  · decide
  · have h := ((auth_plain_base64.1) "user".data "pass".data).2
    rw [h]
    decide

/-! ### Reply parser

`Parser` from `src/connection/parser.rs`: a single-byte reader with a
one-character lookahead (`next_char`, initialised to `'\0'`).  The parser
state is the remaining stream plus the lookahead; every operation returns its
result together with the updated state.  A read past the end of the provided
stream is modelled as the transport read failure `Network`.  `recvText` and
`recvReply` carry a fuel argument standing for the source's unbounded loops;
callers pass at least `stream.length + 1`, which is never exhausted first. -/

/-- `Parser::recv_char` (`src/connection/parser.rs` lines 22-29): return the
lookahead, refill it with the next stream byte. -/
def recvChar (s : List Char) (next : Char) :
    Except SmtpErr Char × List Char × Char :=
  match s with
  | [] => (.error .Network, s, next)
  | b :: rest => (.ok next, rest, b)

/-- `Parser::recv_digit` (lines 33-40). -/
def recvDigit (s : List Char) (next : Char) :
    Except SmtpErr Nat × List Char × Char :=
  match recvChar s next with
  | (.error e, s1, n1) => (.error e, s1, n1)
  | (.ok c, s1, n1) =>
    if c > '9' ∨ c < '0' then (.error .Protocol, s1, n1)
    else (.ok (c.toNat - 48), s1, n1)

/-- `Parser::expect_char` (lines 41-48). -/
def expectChar (exp : Char) (s : List Char) (next : Char) :
    Except SmtpErr Unit × List Char × Char :=
  match recvChar s next with
  | (.error e, s1, n1) => (.error e, s1, n1)
  | (.ok c, s1, n1) =>
    if c = exp then (.ok (), s1, n1) else (.error .Protocol, s1, n1)

/-- `Parser::expect_end` (lines 49-56): expect `'\r'` and a `'\n'` lookahead. -/
def expectEnd (s : List Char) (next : Char) :
    Except SmtpErr Unit × List Char × Char :=
  match expectChar '\r' s next with
  | (.error e, s1, n1) => (.error e, s1, n1)
  | (.ok (), s1, n1) =>
    if n1 = '\n' then (.ok (), s1, n1) else (.error .Protocol, s1, n1)

/-- `Parser::recv_text` (lines 57-67): accumulate characters until a `'\r'`
immediately followed by a `'\n'` lookahead. -/
def recvText : Nat → List Char → Char → Except SmtpErr (List Char) × List Char × Char
  | 0, s, next => (.error .Network, s, next)
  | fuel + 1, s, next =>
    match recvChar s next with
    | (.error e, s1, n1) => (.error e, s1, n1)
    | (.ok c, s1, n1) =>
      if c = '\r' ∧ n1 = '\n' then (.ok [], s1, n1)
      else
        match recvText fuel s1 n1 with
        | (.error e, s2, n2) => (.error e, s2, n2)
        | (.ok text, s2, n2) => (.ok (c :: text), s2, n2)

/-- `Parser::recv_line` (lines 68-87): one discarded read, three digits, the
separator lookahead, then either text up to `CRLF` (separator `' '` or `'-'`)
or an immediate `CRLF`; the numeric code must be recognized by
`status_code`.  `is_last` is the separator's equality with `' '`. -/
def recvLine (fuel : Nat) (s : List Char) (next : Char) :
    Except SmtpErr Line × List Char × Char :=
  match recvChar s next with
  | (.error e, s1, n1) => (.error e, s1, n1)
  | (.ok _, s1, n1) =>
    match recvDigit s1 n1 with
    | (.error e, s2, n2) => (.error e, s2, n2)
    | (.ok d1, s2, n2) =>
      match recvDigit s2 n2 with
      | (.error e, s3, n3) => (.error e, s3, n3)
      | (.ok d2, s3, n3) =>
        match recvDigit s3 n3 with
        | (.error e, s4, n4) => (.error e, s4, n4)
        | (.ok d3, s4, n4) =>
          let code := d1 * 100 + d2 * 10 + d3
          if n4 = ' ' ∨ n4 = '-' then
            match recvChar s4 n4 with
            | (.error e, s5, n5) => (.error e, s5, n5)
            | (.ok _, s5, n5) =>
              match recvText fuel s5 n5 with
              | (.error e, s6, n6) => (.error e, s6, n6)
              | (.ok text, s6, n6) =>
                match statusCode code with
                | some sc => (.ok ⟨sc, text, n4 == ' '⟩, s6, n6)
                | none => (.error .Protocol, s6, n6)
          else
            match expectEnd s4 n4 with
            | (.error e, s5, n5) => (.error e, s5, n5)
            | (.ok (), s5, n5) =>
              match statusCode code with
              | some sc => (.ok ⟨sc, [], n4 == ' '⟩, s5, n5)
              | none => (.error .Protocol, s5, n5)

/-- `Parser::recv_reply` (lines 88-94): read lines until one with
`is_last = true`. -/
def recvReply : Nat → List Char → Char → Except SmtpErr (List Line) × List Char × Char
  | 0, s, next => (.error .Network, s, next)
  | fuel + 1, s, next =>
    match recvLine (fuel + 1) s next with
    | (.error e, s1, n1) => (.error e, s1, n1)
    | (.ok line, s1, n1) =>
      if line.last then (.ok [line], s1, n1)
      else
        match recvReply fuel s1 n1 with
        | (.error e, s2, n2) => (.error e, s2, n2)
        | (.ok lines, s2, n2) => (.ok (line :: lines), s2, n2)

/-- Shape of every successful `recvReply`: a non-empty line list whose final
element is the only one with `last = true`. -/
lemma recvReply_shape : ∀ (fuel : Nat) (s : List Char) (next : Char)
    (lines : List Line) (s' : List Char) (n' : Char),
    recvReply fuel s next = (.ok lines, s', n') →
    ∃ pre lst, lines = pre ++ [lst] ∧ lst.last = true ∧
      ∀ l ∈ pre, l.last = false := by
  intro fuel
  induction fuel with
  | zero =>
    intro s next lines s' n' h
    simp [recvReply] at h
  | succ fuel ih =>
    intro s next lines s' n' h
    simp only [recvReply] at h
    rcases hl : recvLine (fuel + 1) s next with ⟨res, s1, n1⟩
    rw [hl] at h
    match res with
    | .error e => simp at h
    | .ok line =>
      simp only [] at h
      by_cases hlast : line.last
      · rw [if_pos hlast] at h
        simp only [Prod.mk.injEq, Except.ok.injEq] at h
        exact ⟨[], line, by simp [h.1.symm], hlast, by simp⟩
      · rw [if_neg hlast] at h
        rcases hr : recvReply fuel s1 n1 with ⟨res2, s2, n2⟩
        rw [hr] at h
        match res2 with
        | .error e => simp at h
        | .ok lines2 =>
          simp only [Prod.mk.injEq, Except.ok.injEq] at h
          obtain ⟨pre2, lst2, hsplit, hl2, hpre2⟩ :=
            ih s1 n1 lines2 s2 n2 (by rw [hr])
          refine ⟨line :: pre2, lst2, ?_, hl2, ?_⟩
          · rw [← h.1, hsplit]; rfl
          · intro l hmem
            rcases List.mem_cons.mp hmem with hll | hm2
            · subst hll
              simpa using hlast
            · exact hpre2 l hm2

/-- In every successful `recvLine` on a stream of at least four bytes, the
`last` flag is exactly whether the separator byte following the three digit
bytes was a space. -/
lemma recvLine_last_iff_space (fuel : Nat) (a b c d : Char) (rest : List Char)
    (next : Char) (line : Line) (s' : List Char) (n' : Char)
    (h : recvLine fuel (a :: b :: c :: d :: rest) next = (.ok line, s', n')) :
    line.last = true ↔ d = ' ' := by
  simp only [recvLine, recvChar, recvDigit] at h
  by_cases ha : a > '9' ∨ a < '0'
  · simp [ha] at h
  rw [if_neg ha] at h
  simp only [] at h
  by_cases hb : b > '9' ∨ b < '0'
  · simp [hb] at h
  rw [if_neg hb] at h
  simp only [] at h
  by_cases hc : c > '9' ∨ c < '0'
  · simp [hc] at h
  rw [if_neg hc] at h
  simp only [] at h
  by_cases hd : d = ' ' ∨ d = '-'
  · rw [if_pos hd] at h
    match rest with
    | [] => simp at h
    | r :: rs =>
      simp only [] at h
      rcases hT : recvText fuel rs r with ⟨tres, sT, nT⟩
      rw [hT] at h
      match tres with
      | .error e => simp at h
      | .ok text =>
        simp only [] at h
        rcases hS : statusCode ((a.toNat - 48) * 100 + (b.toNat - 48) * 10 +
            (c.toNat - 48)) with _ | sc
        · rw [hS] at h; simp at h
        · rw [hS] at h
          simp only [Prod.mk.injEq, Except.ok.injEq] at h
          rw [← h.1]
          simp
  · rw [if_neg hd] at h
    simp only [expectEnd, expectChar, recvChar] at h
    match rest with
    | [] => simp at h
    | r :: rs =>
      simp only [] at h
      by_cases hcr : d = '\r'
      · rw [if_pos hcr] at h
        simp only [] at h
        by_cases hlf : r = '\n'
        · rw [if_pos hlf] at h
          simp only [] at h
          rcases hS : statusCode ((a.toNat - 48) * 100 + (b.toNat - 48) * 10 +
              (c.toNat - 48)) with _ | sc
          · rw [hS] at h; simp at h
          · rw [hS] at h
            simp only [Prod.mk.injEq, Except.ok.injEq] at h
            rw [← h.1]
            simp only [Line.last]
            constructor
            · intro hbeq
              exact absurd (by simpa using hbeq) (fun hsp => hd (Or.inl hsp))
            · intro hsp
              exact absurd (Or.inl hsp) hd
        · rw [if_neg hlf] at h; simp at h
      · rw [if_neg hcr] at h; simp at h

/-- C7: every reply returned by `recvReply` is a non-empty sequence of lines
whose last element is the only one with `is_last = true`, and `recvLine` sets
`is_last` iff the separator byte after the three digit bytes was a space. -/
theorem reply_is_last_invariant :
    (∀ (fuel : Nat) (s : List Char) (next : Char) (lines : List Line)
        (s' : List Char) (n' : Char),
      recvReply fuel s next = (.ok lines, s', n') →
      ∃ pre lst, lines = pre ++ [lst] ∧ lst.last = true ∧
        ∀ l ∈ pre, l.last = false)
    ∧ (∀ (fuel : Nat) (a b c d : Char) (rest : List Char) (next : Char)
        (line : Line) (s' : List Char) (n' : Char),
      recvLine fuel (a :: b :: c :: d :: rest) next = (.ok line, s', n') →
      (line.last = true ↔ d = ' ')) :=
  ⟨recvReply_shape, fun fuel a b c d rest next line s' n' h =>
    recvLine_last_iff_space fuel a b c d rest next line s' n' h⟩

/-- Witness for C7 on the concrete two-line reply `250-a CRLF 250 b CRLF`:
the parsed reply is `[a-line (not last), b-line (last)]`, and the space
separator of a concrete single line yields `is_last = true`. -/
theorem reply_is_last_invariant_witness :
    (∃ pre lst,
      [Line.mk .Okay "a".data false, Line.mk .Okay "b".data true] =
        pre ++ [lst] ∧ lst.last = true ∧ ∀ l ∈ pre, l.last = false)
    ∧ (Line.mk .Okay "ok".data true).last = true := by
  constructor
  · exact reply_is_last_invariant.1 20 "250-a\r\n250 b\r\n".data '\x00'
      [Line.mk .Okay "a".data false, Line.mk .Okay "b".data true] [] '\n'
      (by decide)
  · have h := reply_is_last_invariant.2 20 '2' '5' '0' ' ' "ok\r\n".data '\x00'
      (Line.mk .Okay "ok".data true) [] '\n' (by decide)
    simp

/-- The digit test of `Parser::recv_digit`: a byte passes iff it is not
rejected by the source's `c > '9' || c < '0'` check. -/
def isDigitC (c : Char) : Prop := ¬(c > '9' ∨ c < '0')

instance (c : Char) : Decidable (isDigitC c) := by unfold isDigitC; infer_instance

/-- The numeric code formed from the three digit bytes, as computed by
`recv_line` (`d1 * 100 + d2 * 10 + d3`). -/
def codeOf (a b c : Char) : Nat :=
  (a.toNat - 48) * 100 + (b.toNat - 48) * 10 + (c.toNat - 48)

set_option maxRecDepth 8192 in
lemma statusCode_isSome_iff_mem :
    ∀ n, n < 1000 → ((statusCode n).isSome ↔ n ∈ recognizedCodes) := by decide

lemma statusCode_toNat_mem : ∀ sc : StatusCode, sc.toNat ∈ recognizedCodes := by
  intro sc
  cases sc <;> decide

lemma digit_char_bounds (a : Char) (h : isDigitC a) :
    48 ≤ a.toNat ∧ a.toNat ≤ 57 := by
  unfold isDigitC at h
  push_neg at h
  obtain ⟨h1, h2⟩ := h
  rw [Char.le_def] at h1 h2
  rw [UInt32.le_def] at h1 h2
  exact ⟨h2, h1⟩

/-- Running `recv_text` over a `CR`-free text followed by `CRLF`: the
characters seen are the lookahead `nx` followed by the stream text. -/
lemma recvText_run (txt : List Char) : ∀ (rest : List Char) (nx : Char) (fuel : Nat),
    (∀ ch ∈ nx :: txt, ch ≠ '\r') → txt.length + 2 ≤ fuel →
    recvText fuel (txt ++ '\r' :: '\n' :: rest) nx = (.ok (nx :: txt), rest, '\n') := by
  induction txt with
  | nil =>
    intro rest nx fuel hcr hf
    obtain ⟨f, rfl⟩ : ∃ f, fuel = f + 2 := ⟨fuel - 2, by omega⟩
    have hnx : nx ≠ '\r' := hcr nx (by simp)
    simp [recvText, recvChar, hnx]
  | cons t ts ih =>
    intro rest nx fuel hcr hf
    obtain ⟨f, rfl⟩ : ∃ f, fuel = f + 1 := ⟨fuel - 1, by omega⟩
    have hnx : nx ≠ '\r' := hcr nx (by simp)
    have hcr2 : ∀ ch ∈ t :: ts, ch ≠ '\r' := fun ch hm => hcr ch (by
      rcases List.mem_cons.mp hm with h1 | h1
      · simp [h1]
      · simp [h1])
    have hf2 : ts.length + 2 ≤ f := by
      simp only [List.length_cons] at hf
      omega
    simp [recvText, recvChar, hnx, ih rest t f hcr2 hf2]

/-- Execution of `recv_line` on a stream whose first three bytes fail to be
digits: the `Protocol` error is raised at the first offending digit
position. -/
lemma recvLine_nondigit_protocol (fuel : Nat) (a b c d : Char)
    (rest : List Char) (next : Char)
    (hnd : ¬(isDigitC a ∧ isDigitC b ∧ isDigitC c)) :
    ∃ s' n', recvLine fuel (a :: b :: c :: d :: rest) next =
      (.error .Protocol, s', n') := by
  by_cases ha : a > '9' ∨ a < '0'
  · exact ⟨c :: d :: rest, b, by simp [recvLine, recvChar, recvDigit, ha]⟩
  by_cases hb : b > '9' ∨ b < '0'
  · exact ⟨d :: rest, c, by simp [recvLine, recvChar, recvDigit, ha, hb]⟩
  by_cases hc : c > '9' ∨ c < '0'
  · exact ⟨rest, d, by simp [recvLine, recvChar, recvDigit, ha, hb, hc]⟩
  exact absurd ⟨ha, hb, hc⟩ hnd

/-- Execution of `recv_line` on a well-formed line whose three digits form a
number outside the recognized set: the line is consumed and `Protocol` is
raised. -/
lemma recvLine_badcode_protocol (fuel : Nat) (a b c : Char)
    (text rest : List Char) (next : Char)
    (ha : isDigitC a) (hb : isDigitC b) (hc : isDigitC c)
    (hout : codeOf a b c ∉ recognizedCodes)
    (htext : ∀ ch ∈ text, ch ≠ '\r') (hf : text.length + 2 ≤ fuel) :
    ∃ s' n', recvLine fuel
      (a :: b :: c :: ' ' :: (text ++ '\r' :: '\n' :: rest)) next =
      (.error .Protocol, s', n') := by
  have hcode_lt : codeOf a b c < 1000 := by
    have := digit_char_bounds a ha
    have := digit_char_bounds b hb
    have := digit_char_bounds c hc
    unfold codeOf
    omega
  have hnone : statusCode (codeOf a b c) = none := by
    have h := statusCode_isSome_iff_mem (codeOf a b c) hcode_lt
    rcases hS : statusCode (codeOf a b c) with _ | sc
    · rfl
    · exact absurd (h.mp (by rw [hS]; rfl)) hout
  have ha' : ¬(a > '9' ∨ a < '0') := ha
  have hb' : ¬(b > '9' ∨ b < '0') := hb
  have hc' : ¬(c > '9' ∨ c < '0') := hc
  match text, htext, hf with
  | [], _, _ =>
    refine ⟨rest, '\n', ?_⟩
    obtain ⟨f, rfl⟩ : ∃ f, fuel = f + 2 := ⟨fuel - 2, by omega⟩
    have : (a.toNat - 48) * 100 + (b.toNat - 48) * 10 + (c.toNat - 48) =
        codeOf a b c := rfl
    simp [recvLine, recvChar, recvDigit, recvText, ha', hb', hc', this, hnone]
  | t :: ts, htext, hf =>
    refine ⟨rest, '\n', ?_⟩
    have hrun := recvText_run ts rest t fuel htext (by
      simp only [List.length_cons] at hf
      omega)
    have : (a.toNat - 48) * 100 + (b.toNat - 48) * 10 + (c.toNat - 48) =
        codeOf a b c := rfl
    simp [recvLine, recvChar, recvDigit, ha', hb', hc', hrun, this, hnone]

/-- C8: `recv_line` never returns a line whose code is outside the recognized
status-code set; a non-digit byte among the three code bytes raises
`Protocol`; and three digits forming a number outside the set on an
otherwise well-formed line raise `Protocol`. -/
theorem recv_line_code_gate :
    (∀ (fuel : Nat) (s : List Char) (next : Char) (line : Line)
        (s' : List Char) (n' : Char),
      recvLine fuel s next = (.ok line, s', n') →
      line.code.toNat ∈ recognizedCodes)
    ∧ (∀ (fuel : Nat) (a b c d : Char) (rest : List Char) (next : Char),
      ¬(isDigitC a ∧ isDigitC b ∧ isDigitC c) →
      ∃ s' n', recvLine fuel (a :: b :: c :: d :: rest) next =
        (.error .Protocol, s', n'))
    ∧ (∀ (fuel : Nat) (a b c : Char) (text rest : List Char) (next : Char),
      isDigitC a → isDigitC b → isDigitC c →
      codeOf a b c ∉ recognizedCodes →
      (∀ ch ∈ text, ch ≠ '\r') → text.length + 2 ≤ fuel →
      ∃ s' n', recvLine fuel
        (a :: b :: c :: ' ' :: (text ++ '\r' :: '\n' :: rest)) next =
        (.error .Protocol, s', n')) := by
  refine ⟨?_, recvLine_nondigit_protocol, ?_⟩
  · intro fuel s next line s' n' _
    exact statusCode_toNat_mem line.code
  · intro fuel a b c text rest next ha hb hc hout htext hf
    exact recvLine_badcode_protocol fuel a b c text rest next ha hb hc hout
      htext hf

/-- Witness for C8: the recognized code 250 parses; a leading `A` raises
`Protocol`; and the unrecognized code 999 on a well-formed line raises
`Protocol`. -/
theorem recv_line_code_gate_witness :
    (250 ∈ recognizedCodes)
    ∧ (∃ s' n', recvLine 20 "A50 x\r\n".data '\x00' =
        (.error .Protocol, s', n'))
    ∧ (∃ s' n', recvLine 20 "999 x\r\n".data '\x00' =
        (.error .Protocol, s', n')) := by
  refine ⟨?_, ?_, ?_⟩
  · exact recv_line_code_gate.1 20 "250 ok\r\n".data '\x00'
      (Line.mk .Okay "ok".data true) [] '\n' (by decide)
  · exact recv_line_code_gate.2.1 20 'A' '5' '0' ' ' "x\r\n".data '\x00'
      (by decide)
  · exact recv_line_code_gate.2.2 20 '9' '9' '9' "x".data "".data '\x00'
      (by decide) (by decide) (by decide) (by decide) (by decide) (by decide)

/-! ### Dot stuffing

`Mail::final_text` in `src/message.rs` lines 24-27 is the single substring
replacement `text.replace(".\r\n", "..\r\n")` (left-to-right,
non-overlapping).  `src/lib.rs` ends with the comment `todo: ! dot stuffing`.
The payload writer `command_mail_payload` (`src/connection/mod.rs` lines
306-331) transmits headers, a blank line, `final_text`, and the terminator
`\r\n.\r\n`. -/

/-- `Mail::final_text`: replace every (non-overlapping, leftmost-first)
occurrence of `".\r\n"` by `"..\r\n"`. -/
def finalText : List Char → List Char
  | '.' :: '\r' :: '\n' :: rest => '.' :: '.' :: '\r' :: '\n' :: finalText rest
  | c :: rest => c :: finalText rest
  | [] => []

/-- Split a character sequence at every `CRLF`. -/
def splitCRLF : List Char → List (List Char)
  | '\r' :: '\n' :: rest => [] :: splitCRLF rest
  | c :: rest =>
    match splitCRLF rest with
    | p :: ps => (c :: p) :: ps
    | [] => [[c]]
  | [] => [[]]

/-- A line that begins with a single bare dot: it starts with `'.'` but not
with the stuffed `".."`. -/
def lineStartsBareDot (l : List Char) : Bool :=
  match l with
  | '.' :: '.' :: _ => false
  | '.' :: _ => true
  | _ => false

/-- Some line of the sequence begins with a single bare dot. -/
def hasBareDotLine (s : List Char) : Bool :=
  (splitCRLF s).any lineStartsBareDot

/-- C1 (code bug): the transmitted body is produced by `final_text`, which
only stuffs the three-byte pattern `".\r\n"`; the one-line body `".x"` is
transmitted unchanged and still contains a line beginning with a single bare
dot, violating the dot-stuffing requirement.  (The line that is exactly `"."`
is stuffed, confirming the replacement is the only transformation.) -/
theorem dot_stuffing_not_applied :
    finalText ".x".data = ".x".data
    ∧ hasBareDotLine (finalText ".x".data) = true
    ∧ finalText ".\r\nrest".data = "..\r\nrest".data
    ∧ hasBareDotLine (finalText ".stuffed?\r\nbody".data) = true := by
  refine ⟨by decide, by decide, by decide, by decide⟩

/-! ### Address validator

`check_address` in `src/lib.rs` lines 463-471 matches the address against
the regular expression
`^([a-z0-9_+]([a-z0-9_+.]*[a-z0-9_+])?)@([a-z0-9]+([\-\.]{1}[a-z0-9]+)*\.[a-z]{2,6})`
with `Regex::captures`, i.e. it accepts iff some prefix of the input matches
(the pattern is anchored at the start only).  The regular expression is
embedded as a derivative-based matcher. -/

/-- Regular expressions over characters: empty word, character class,
concatenation, alternation, Kleene star. -/
inductive RE where
  | eps
  | chcls (p : Char → Bool)
  | seq (r1 r2 : RE)
  | alt (r1 r2 : RE)
  | star (r : RE)

/-- The regular expression accepts the empty word. -/
def RE.nullable : RE → Bool
  | .eps => true
  | .chcls _ => false
  | .seq r1 r2 => r1.nullable && r2.nullable
  | .alt r1 r2 => r1.nullable || r2.nullable
  | .star _ => true

/-- Brzozowski derivative with respect to one character. -/
def RE.deriv : RE → Char → RE
  | .eps, _ => .chcls (fun _ => false)
  | .chcls p, c => if p c then .eps else .chcls (fun _ => false)
  | .seq r1 r2, c =>
    if r1.nullable then .alt (.seq (r1.deriv c) r2) (r2.deriv c)
    else .seq (r1.deriv c) r2
  | .alt r1 r2, c => .alt (r1.deriv c) (r2.deriv c)
  | .star r, c => .seq (r.deriv c) (.star r)

/-- The matcher of `Regex::captures` for a start-anchored pattern: does some
prefix of the input match the regular expression? -/
def matchStart (r : RE) : List Char → Bool
  | [] => r.nullable
  | c :: cs => r.nullable || matchStart (r.deriv c) cs

/-- One-or-more repetition. -/
def rePlus (r : RE) : RE := .seq r (.star r)

/-- Zero-or-one repetition. -/
def reOpt (r : RE) : RE := .alt .eps r

/-- Two-to-six repetitions, for `[a-z]{2,6}`. -/
def rep2to6 (r : RE) : RE :=
  .seq r (.seq r (.seq (reOpt r) (.seq (reOpt r) (.seq (reOpt r) (reOpt r)))))

def lowerB (c : Char) : Bool := 'a' ≤ c && c ≤ 'z'

def digitB (c : Char) : Bool := '0' ≤ c && c ≤ '9'

/-- The class `[a-z0-9_+]`. -/
def localEdgeB (c : Char) : Bool := lowerB c || digitB c || c == '_' || c == '+'

/-- The class `[a-z0-9_+.]`. -/
def localMidB (c : Char) : Bool := localEdgeB c || c == '.'

/-- The class `[a-z0-9]`. -/
def domB (c : Char) : Bool := lowerB c || digitB c

/-- The class `[\-\.]`. -/
def dashDotB (c : Char) : Bool := c == '-' || c == '.'

/-- The local part `[a-z0-9_+]([a-z0-9_+.]*[a-z0-9_+])?`. -/
def localRE : RE :=
  .seq (.chcls localEdgeB)
    (reOpt (.seq (.star (.chcls localMidB)) (.chcls localEdgeB)))

/-- The domain part `[a-z0-9]+([\-\.]{1}[a-z0-9]+)*\.[a-z]{2,6}`. -/
def domainRE : RE :=
  .seq (rePlus (.chcls domB))
    (.seq (.star (.seq (.chcls dashDotB) (rePlus (.chcls domB))))
      (.seq (.chcls (fun c => c == '.')) (rep2to6 (.chcls lowerB))))

/-- The full address pattern of `check_address`. -/
def addressRE : RE :=
  .seq localRE (.seq (.chcls (fun c => c == '@')) domainRE)

/-- `check_address` from `src/lib.rs` lines 463-471: accept iff some prefix
of the address matches the start-anchored pattern, otherwise fail with
`MailBoxName`. -/
def checkAddress (address : List Char) : Except SmtpErr Unit :=
  if matchStart addressRE address then .ok () else .error (.MailBoxName address)

lemma nullable_matchStart (r : RE) (t : List Char) (h : r.nullable = true) :
    matchStart r t = true := by
  cases t with
  | nil => simpa [matchStart] using h
  | cons c cs => simp [matchStart, h]

lemma matchStart_append (r : RE) (s t : List Char)
    (h : matchStart r s = true) : matchStart r (s ++ t) = true := by
  induction s generalizing r with
  | nil =>
    simp only [matchStart] at h
    simpa using nullable_matchStart r t h
  | cons c cs ih =>
    simp only [matchStart, Bool.or_eq_true] at h
    rcases h with hnull | hrest
    · simp [matchStart, hnull]
    · simp [matchStart, ih (r.deriv c) hrest]

/-- C10: the validator regular expression is anchored only at the start:
whenever `check_address` accepts `s`, it accepts `s ++ t` for every suffix
`t`, so an accepted address followed by arbitrary trailing bytes is still
accepted and the suffix is never inspected. -/
theorem check_address_ignores_suffix :
    (∀ s t : List Char, matchStart addressRE s = true →
      matchStart addressRE (s ++ t) = true)
    ∧ (∀ s t : List Char, checkAddress s = .ok () →
      checkAddress (s ++ t) = .ok ()) := by
  refine ⟨fun s t h => matchStart_append addressRE s t h, ?_⟩
  intro s t h
  unfold checkAddress at h ⊢
  by_cases hm : matchStart addressRE s = true
  · rw [if_pos (matchStart_append addressRE s t hm)]
  · rw [if_neg hm] at h
    exact absurd h (by simp)

/-- Witness for C10: `a@b.io` is accepted, and so is the same address
followed by an angle bracket, a space, and a control character. -/
theorem check_address_ignores_suffix_witness :
    checkAddress "a@b.io".data = .ok ()
    ∧ checkAddress ("a@b.io".data ++ "> \x01<".data) = .ok () := by
  have hacc : checkAddress "a@b.io".data = .ok () := by decide
  exact ⟨hacc, check_address_ignores_suffix.2 "a@b.io".data "> \x01<".data hacc⟩

/-! ### Session engine

`MailerConnection` from `src/connection/mod.rs`.  The connection state holds
the capability record, the TLS flag (`tlscon.is_some()`), a `down` flag
recording that `terminate` shut the socket down, the remaining bytes the
server will deliver (`stream`), and the wire trace: one `cli` event per
`write` call (mirroring `logger.client(data)`) and one `srv` event per byte
consumed by the parser (mirroring `logger.server(&buf)`).  Name resolution,
dialing, timeouts and transport writes are modelled as succeeding; transport
read failures arise at the end of the provided stream. -/

/-- One logged wire event: a client write or one server byte read. -/
inductive IOEv where
  | cli (data : List Char)
  | srv (b : Char)
deriving DecidableEq, Repr

/-- `Credentials` from `src/lib.rs` lines 223-233. -/
structure Credentials where
  username : List Char
  password : List Char

/-- `Mail` from `src/message.rs` lines 5-13. -/
structure Mail where
  subject : List Char
  fromAddr : List Char
  from_name : Option (List Char)
  toAddr : List Char
  to_name : Option (List Char)
  text : List Char
  attachments : List (List Char)

/-- Modelled from the spec: `Mail::to_bytes` (`src/message.rs` lines 28-52)
delegates to the external `mail_builder::MessageBuilder`, which §1 of the
specification treats as an external byte-serializer ("given a structured
mail, it returns the body bytes to transmit").  Modelled as a concrete
serialization of the from/to/subject headers followed by the dot-stuffed
`final_text` body, which is what the source feeds to the builder. -/
def Mail.to_bytes (m : Mail) : List Char :=
  "From: ".data ++ m.from_name.getD [] ++ "<".data ++ m.fromAddr ++
  ">\r\nTo: ".data ++ m.to_name.getD [] ++ "<".data ++ m.toAddr ++
  ">\r\nSubject: ".data ++ m.subject ++ "\r\n\r\n".data ++ finalText m.text

/-- `Command` from `src/connection/protocol.rs` lines 142-151. -/
inductive Command where
  | Ehlo (me : List Char)
  | Quit
  | StartTls
  | MailFrom (f : List Char)
  | RcptTo (t : List Char)
  | Data
  | AuthPlain (un pw : List Char)
  | AuthLogin

/-- `Command::to_string` from `src/connection/protocol.rs` lines 166-181:
the canonical command line suffixed with `CRLF`. -/
def cmdToString : Command → List Char
  | .Data => "DATA\r\n".data
  | .Ehlo me => "EHLO ".data ++ me ++ "\r\n".data
  | .StartTls => "STARTTLS\r\n".data
  | .Quit => "QUIT\r\n".data
  | .MailFrom f => "MAIL FROM:<".data ++ f ++ ">\r\n".data
  | .RcptTo t => "RCPT TO:<".data ++ t ++ ">\r\n".data
  | .AuthPlain un pw => "AUTH PLAIN ".data ++ getAuthPlain un pw ++ "\r\n".data
  | .AuthLogin => "AUTH LOGIN\r\n".data

/-- The session connection state. -/
structure Conn where
  name : List Char
  meta : ServerMeta
  tls : Bool
  down : Bool
  stream : List Char
  trace : List IOEv
deriving DecidableEq, Repr

/-- `MailerConnection::terminate` (`src/connection/mod.rs` lines 264-268):
shut the transport down, discard the TLS session, reset the capability
record to all `Unknown`. -/
def Conn.terminate (c : Conn) : Conn :=
  { c with down := true, tls := false, meta := ServerMeta.new }

/-- `MailerConnection::write` (lines 125-137): log the client bytes and send
them (transport writes modelled as succeeding). -/
def Conn.write (c : Conn) (data : List Char) : Conn :=
  { c with trace := c.trace ++ [.cli data] }

/-- `MailerConnection::send` (lines 138-140). -/
def Conn.send (c : Conn) (cmd : Command) : Conn :=
  c.write (cmdToString cmd)

/-- `MailerConnection::end` (lines 237-239): write a bare `CRLF`. -/
def Conn.endCrlf (c : Conn) : Conn :=
  c.write "\r\n".data

/-- `stream_recv_reply` (`src/connection/mod.rs` lines 36-42): run a fresh
parser (lookahead `'\0'`). -/
def streamRecvReply (fuel : Nat) (s : List Char) :
    Except SmtpErr (List Line) × List Char :=
  match recvReply fuel s '\x00' with
  | (res, s', _) => (res, s')

/-- `stream_recv_line` (lines 43-53): parse one line with a fresh parser; if
it is not the last line of its reply, drain the rest of the reply and
discard it. -/
def streamRecvLine (fuel : Nat) (s : List Char) :
    Except SmtpErr Line × List Char :=
  match recvLine fuel s '\x00' with
  | (.error e, s1, _) => (.error e, s1)
  | (.ok line, s1, n1) =>
    if line.last then (.ok line, s1)
    else
      match recvReply fuel s1 n1 with
      | (.error e, s2, _) => (.error e, s2)
      | (.ok _, s2, _) => (.ok line, s2)

/-- The check applied to each line by `recv_reply`/`recv_line`
(lines 96-103, 116-123): status 421 or 554. -/
def badLine (l : Line) : Bool :=
  l.code == .ServiceNotAvailable || l.code == .TransactionFailed

/-- Advance the connection after a parser run that left the stream at `s'`,
logging one `srv` event per consumed byte. -/
def Conn.consumeTo (c : Conn) (s' : List Char) : Conn :=
  { c with stream := s',
           trace := c.trace ++
             (c.stream.take (c.stream.length - s'.length)).map IOEv.srv }

/-- `MailerConnection::recv_reply` (lines 86-105): parse a whole reply, then
terminate with `ServerUnavailable` if any of its lines carries 421 or 554. -/
def Conn.recvReplyC (c : Conn) : Except SmtpErr (List Line) × Conn :=
  match streamRecvReply (c.stream.length + 1) c.stream with
  | (res, s') =>
    let c1 := c.consumeTo s'
    match res with
    | .error e => (.error e, c1)
    | .ok lines =>
      if lines.any badLine then (.error .ServerUnavailable, c1.terminate)
      else (.ok lines, c1)

/-- `MailerConnection::recv_line` (lines 106-124): parse one line (draining
the rest of its reply), then terminate with `ServerUnavailable` if that line
carries 421 or 554. -/
def Conn.recvLineC (c : Conn) : Except SmtpErr Line × Conn :=
  match streamRecvLine (c.stream.length + 1) c.stream with
  | (res, s') =>
    let c1 := c.consumeTo s'
    match res with
    | .error e => (.error e, c1)
    | .ok line =>
      if badLine line then (.error .ServerUnavailable, c1.terminate)
      else (.ok line, c1)

/-- `MailerConnection::init_connection` (lines 159-174): dial (modelled as
succeeding), read the greeting line, mapping any read error to
`InvalidServer`, and require code 220. -/
def Conn.initConnection (c : Conn) : Except SmtpErr Unit × Conn :=
  match c.recvLineC with
  | (.error _, c1) => (.error .InvalidServer, c1)
  | (.ok line, c1) =>
    if line.code ≠ .ServiceReady then (.error .Protocol, c1) else (.ok (), c1)

/-- ASCII uppercasing, modelling `str::to_uppercase` on reply text; the
handshake compares the result only against all-ASCII keywords, on which the
two agree. -/
def asciiUpper (c : Char) : Char :=
  if 'a' ≤ c ∧ c ≤ 'z' then Char.ofNat (c.toNat - 32) else c

def upperText (t : List Char) : List Char := t.map asciiUpper

/-- Rust `str::split(' ')`: split at every single space, keeping empty
pieces. -/
def splitSp : List Char → List (List Char)
  | [] => [[]]
  | c :: rest =>
    if c = ' ' then [] :: splitSp rest
    else
      match splitSp rest with
      | p :: ps => (c :: p) :: ps
      | [] => [[c]]

/-- The inner loop of the handshake's `AUTH` branch (`src/connection/mod.rs`
lines 200-208): mark `PLAIN`/`LOGIN` mechanisms as supported. -/
def authApply : ServerMeta → List (List Char) → ServerMeta
  | m, [] => m
  | m, w :: ws =>
    if w = "PLAIN".data then authApply { m with auth_plain := .Supported } ws
    else if w = "LOGIN".data then
      authApply { m with auth_login := .Supported } ws
    else authApply m ws

/-- Processing of one EHLO reply line (`src/connection/mod.rs` lines
190-210): uppercase the text and match `STARTTLS`, `8BITMIME`,
`PIPELINING`, or an `AUTH` word list. -/
def ehloLineApply (m : ServerMeta) (text : List Char) : ServerMeta :=
  let t := upperText text
  if t = "STARTTLS".data then { m with tls := .Supported }
  else if t = "8BITMIME".data then { m with eight_bit_mime := .Supported }
  else if t = "PIPELINING".data then { m with pipelining := .Supported }
  else
    match splitSp t with
    | [] => m
    | w0 :: ws => if w0 = "AUTH".data then authApply m ws else m

/-- The handshake's per-line loop (lines 188-211): each line must carry 250,
then updates the capability record; on a non-250 line the loop stops with
`Protocol`, keeping the updates made so far. -/
def ehloUpdate : List Line → ServerMeta → Except SmtpErr Unit × ServerMeta
  | [], m => (.ok (), m)
  | l :: rest, m =>
    if l.code ≠ .Okay then (.error .Protocol, m)
    else ehloUpdate rest (ehloLineApply m l.text)

/-- The capability-record update performed by `handshake` after reading the
EHLO reply (lines 183-211): reset `tls` to `NotSupported`, additionally
reset `auth_plain` when the transport is TLS, then fold the reply lines. -/
def handshakeMeta (isTls : Bool) (m : ServerMeta) (lines : List Line) :
    Except SmtpErr Unit × ServerMeta :=
  let m1 := { m with tls := Support.NotSupported }
  let m2 := if isTls then { m1 with auth_plain := Support.NotSupported } else m1
  ehloUpdate lines m2

/-- `MailerConnection::handshake` (lines 178-213): send `EHLO`, read the
reply, update the capability record. -/
def Conn.handshake (c : Conn) : Except SmtpErr Unit × Conn :=
  let c1 := c.send (.Ehlo c.name)
  match c1.recvReplyC with
  | (.error e, c2) => (.error e, c2)
  | (.ok rep, c2) =>
    match handshakeMeta c2.tls c2.meta rep with
    | (res, m') => (res, { c2 with meta := m' })

/-- `MailerConnection::start_tls` (lines 214-221): send `STARTTLS`, expect
220, upgrade the transport. -/
def Conn.startTls (c : Conn) : Except SmtpErr Unit × Conn :=
  let c1 := c.send .StartTls
  match c1.recvLineC with
  | (.error e, c2) => (.error e, c2)
  | (.ok line, c2) =>
    if line.code ≠ .ServiceReady then (.error .Protocol, c2)
    else (.ok (), { c2 with tls := true })

/-- `MailerConnection::reply_auth_result` (lines 222-229). -/
def Conn.replyAuthResult (c : Conn) : Except SmtpErr Unit × Conn :=
  match c.recvLineC with
  | (.error e, c1) => (.error e, c1)
  | (.ok line, c1) =>
    match line.code with
    | .AuthSuccess => (.ok (), c1)
    | .AuthInvalidCred => (.error .InvalidCred, c1)
    | .NoAccess => (.error .InvalidCred, c1)
    | _ => (.error .Protocol, c1)

/-- `MailerConnection::auth_plain` (lines 230-236). -/
def Conn.authPlain (c : Conn) (creds : Credentials) :
    Except SmtpErr Unit × Conn :=
  (c.send (.AuthPlain creds.username creds.password)).replyAuthResult

/-- `MailerConnection::auth_login` (lines 240-249). -/
def Conn.authLogin (c : Conn) (creds : Credentials) :
    Except SmtpErr Unit × Conn :=
  let c1 := c.send .AuthLogin
  match c1.recvLineC with
  | (.error e, c2) => (.error e, c2)
  | (.ok line, c2) =>
    if line.code ≠ .ServerChallenge then (.error .Protocol, c2)
    else
      let c3 := (c2.write (getAuthLogin creds.username)).endCrlf
      match c3.recvLineC with
      | (.error e, c4) => (.error e, c4)
      | (.ok line2, c4) =>
        if line2.code ≠ .ServerChallenge then (.error .Protocol, c4)
        else ((c4.write (getAuthLogin creds.password)).endCrlf).replyAuthResult

/-- `MailerConnection::try_connect` (lines 250-263): greeting, handshake,
optional STARTTLS upgrade followed by a second handshake, then PLAIN or
LOGIN authentication when advertised. -/
def Conn.tryConnect (c : Conn) (creds : Credentials) :
    Except SmtpErr Unit × Conn :=
  match c.initConnection with
  | (.error e, c1) => (.error e, c1)
  | (.ok (), c1) =>
  match c1.handshake with
  | (.error e, c2) => (.error e, c2)
  | (.ok (), c2) =>
  match
    (if c2.meta.tls = Support.Supported then
      match c2.startTls with
      | (.error e, c3) => (.error e, c3)
      | (.ok (), c3) => c3.handshake
    else ((.ok (), c2) : Except SmtpErr Unit × Conn)) with
  | (.error e, c4) => (.error e, c4)
  | (.ok (), c4) =>
    if c4.meta.auth_plain = Support.Supported then c4.authPlain creds
    else if c4.meta.auth_login = Support.Supported then c4.authLogin creds
    else (.ok (), c4)

/-- `MailerConnection::try_close` (lines 269-275): `QUIT`, expect 221,
terminate. -/
def Conn.tryClose (c : Conn) : Except SmtpErr Unit × Conn :=
  let c1 := c.send .Quit
  match c1.recvLineC with
  | (.error e, c2) => (.error e, c2)
  | (.ok line, c2) =>
    if line.code ≠ .ServiceClosingChannel then (.error .Protocol, c2)
    else (.ok (), c2.terminate)

/-- `command_mail_from` (lines 276-278). -/
def Conn.commandMailFrom (c : Conn) (fromAddr : List Char) : Conn :=
  c.send (.MailFrom fromAddr)

/-- `reply_mail_from` (lines 279-286). -/
def Conn.replyMailFrom (c : Conn) (fromAddr : List Char) :
    Except SmtpErr Unit × Conn :=
  match c.recvLineC with
  | (.error e, c1) => (.error e, c1)
  | (.ok line, c1) =>
    match line.code with
    | .Okay => (.ok (), c1)
    | .NoAccess => (.error .Policy, c1)
    | .MailBoxNameNotAllowed => (.error (.MailBoxName fromAddr), c1)
    | _ => (.error .Protocol, c1)

/-- `command_mail_to` (lines 287-289). -/
def Conn.commandMailTo (c : Conn) (toAddr : List Char) : Conn :=
  c.send (.RcptTo toAddr)

/-- `reply_mail_to` (lines 290-299). -/
def Conn.replyMailTo (c : Conn) (toAddr : List Char) :
    Except SmtpErr Unit × Conn :=
  match c.recvLineC with
  | (.error e, c1) => (.error e, c1)
  | (.ok line, c1) =>
    match line.code with
    | .Okay => (.ok (), c1)
    | .UserNotLocal => (.ok (), c1)
    | .NoAccess => (.error .Policy, c1)
    | .MailboxUnavailable => (.error .Policy, c1)
    | .MailBoxNameNotAllowed => (.error (.MailBoxName toAddr), c1)
    | .UserNotLocalError => (.error (.Forward line.text), c1)
    | _ => (.error .Protocol, c1)

/-- `command_mail_data` (lines 300-302). -/
def Conn.commandMailData (c : Conn) : Conn :=
  c.send .Data

/-- `reply_mail_data` (lines 303-305): expect 354. -/
def Conn.replyMailData (c : Conn) : Except SmtpErr Unit × Conn :=
  match c.recvLineC with
  | (.error e, c1) => (.error e, c1)
  | (.ok line, c1) =>
    if line.code ≠ .StartMailInput then (.error .Protocol, c1)
    else (.ok (), c1)

/-- `command_mail_payload` (lines 306-331): with 8BITMIME the serializer's
bytes, otherwise synthesised headers, a blank line, and the dot-stuffed
text; in both cases the `\r\n.\r\n` terminator.  Attachment reads are
modelled as succeeding. -/
def Conn.commandMailPayload (c : Conn) (m : Mail) : Conn :=
  if c.meta.eight_bit_mime = Support.Supported then
    (c.write m.to_bytes).write "\r\n.\r\n".data
  else
    let c1 := c.write ("From: ".data ++ m.from_name.getD [] ++ "<".data ++
      m.fromAddr ++ ">\r\n".data)
    let c2 := c1.write ("To: ".data ++ m.to_name.getD [] ++ "<".data ++
      m.toAddr ++ ">\r\n".data)
    let c3 := c2.write ("Subject: ".data ++ m.subject ++ "\r\n".data)
    let c4 := c3.write "\r\n".data
    let c5 := c4.write (finalText m.text)
    c5.write "\r\n.\r\n".data

/-- `reply_mail_payload` (lines 332-338). -/
def Conn.replyMailPayload (c : Conn) : Except SmtpErr Unit × Conn :=
  match c.recvLineC with
  | (.error e, c1) => (.error e, c1)
  | (.ok line, c1) =>
    match line.code with
    | .Okay => (.ok (), c1)
    | .NoAccess => (.error .Policy, c1)
    | .MailboxUnavailable => (.error .Policy, c1)
    | _ => (.error .Protocol, c1)

/-- `MailerConnection::try_send_mail` (lines 340-365): validate both
addresses, require 8BITMIME when attachments are present, then run the
transaction — pipelined when the `pipelining` capability is `Supported`,
serial otherwise. -/
def Conn.trySendMail (c : Conn) (m : Mail) : Except SmtpErr Unit × Conn :=
  match checkAddress m.fromAddr with
  | .error e => (.error e, c)
  | .ok () =>
  match checkAddress m.toAddr with
  | .error e => (.error e, c)
  | .ok () =>
  if m.attachments.length > 0 ∧ c.meta.eight_bit_mime ≠ Support.Supported then
    (.error .MIMENotSupported, c)
  else if c.meta.pipelining = Support.Supported then
    let c1 := c.commandMailFrom m.fromAddr
    let c2 := c1.commandMailTo m.toAddr
    let c3 := c2.commandMailData
    match c3.replyMailFrom m.fromAddr with
    | (.error e, c4) => (.error e, c4)
    | (.ok (), c4) =>
    match c4.replyMailTo m.toAddr with
    | (.error e, c5) => (.error e, c5)
    | (.ok (), c5) =>
    match c5.replyMailData with
    | (.error e, c6) => (.error e, c6)
    | (.ok (), c6) => (c6.commandMailPayload m).replyMailPayload
  else
    let c1 := c.commandMailFrom m.fromAddr
    match c1.replyMailFrom m.fromAddr with
    | (.error e, c2) => (.error e, c2)
    | (.ok (), c2) =>
    let c3 := c2.commandMailTo m.toAddr
    match c3.replyMailTo m.toAddr with
    | (.error e, c4) => (.error e, c4)
    | (.ok (), c4) =>
    let c5 := c4.commandMailData
    match c5.replyMailData with
    | (.error e, c6) => (.error e, c6)
    | (.ok (), c6) => (c6.commandMailPayload m).replyMailPayload

/-- C9: `try_send_mail` runs its pre-checks before writing any byte: an
invalid from-address yields `MailBoxName(from)`, an invalid to-address
yields `MailBoxName(to)`, and attachments without the 8BITMIME capability
yield `MIMENotSupported`; in each case the returned connection is the input
connection unchanged — same trace (nothing sent), same stream, same
capability record. -/
theorem send_mail_prechecks :
    (∀ (c : Conn) (m : Mail), matchStart addressRE m.fromAddr = false →
      c.trySendMail m = (.error (.MailBoxName m.fromAddr), c))
    ∧ (∀ (c : Conn) (m : Mail), matchStart addressRE m.fromAddr = true →
      matchStart addressRE m.toAddr = false →
      c.trySendMail m = (.error (.MailBoxName m.toAddr), c))
    ∧ (∀ (c : Conn) (m : Mail), matchStart addressRE m.fromAddr = true →
      matchStart addressRE m.toAddr = true →
      m.attachments ≠ [] → c.meta.eight_bit_mime ≠ Support.Supported →
      c.trySendMail m = (.error .MIMENotSupported, c)) := by
  refine ⟨?_, ?_, ?_⟩
  · intro c m hf
    simp [Conn.trySendMail, checkAddress, hf]
  · intro c m hf ht
    simp [Conn.trySendMail, checkAddress, hf, ht]
  · intro c m hf ht hatt h8
    have hlen : m.attachments.length > 0 := List.length_pos.mpr hatt
    simp [Conn.trySendMail, checkAddress, hf, ht, hlen, h8]

/-- Witness for C9: a connection without 8BITMIME rejects a mail with an
invalid from-address, and one with an attachment, without sending
anything. -/
theorem send_mail_prechecks_witness :
    ({ name := "me".data, meta := ServerMeta.new, tls := false, down := false,
       stream := "250 ok\r\n".data, trace := [] } : Conn).trySendMail
      ⟨"s".data, "bad".data, none, "c@d.io".data, none, "hi".data, []⟩ =
      (.error (.MailBoxName "bad".data),
       { name := "me".data, meta := ServerMeta.new, tls := false,
         down := false, stream := "250 ok\r\n".data, trace := [] })
    ∧ ({ name := "me".data, meta := ServerMeta.new, tls := false,
         down := false, stream := "250 ok\r\n".data, trace := [] } : Conn).trySendMail
      ⟨"s".data, "a@b.io".data, none, "c@d.io".data, none, "hi".data,
       ["file.png".data]⟩ =
      (.error .MIMENotSupported,
       { name := "me".data, meta := ServerMeta.new, tls := false,
         down := false, stream := "250 ok\r\n".data, trace := [] }) := by
  constructor
  · exact send_mail_prechecks.1 _ _ (by decide)
  · exact send_mail_prechecks.2.2 _ _ (by decide) (by decide) (by decide)
      (by decide)

/-- C3 (amended): when a reply is read through `recv_reply`, a 421 or 554 on
ANY of its lines terminates the session (transport shut down, TLS discarded,
capabilities reset to Unknown) and surfaces as `ServerUnavailable`; when a
single line is read through `recv_line`, only the returned FIRST line is
checked — a 421/554 there terminates likewise, but a clean first line is
returned as-is even though the drained continuation lines are never
inspected. -/
theorem reply_421_554_terminates :
    (∀ (c : Conn) (lines : List Line) (s' : List Char),
      streamRecvReply (c.stream.length + 1) c.stream = (.ok lines, s') →
      lines.any badLine = true →
      ∃ c', c.recvReplyC = (.error .ServerUnavailable, c') ∧
        c'.down = true ∧ c'.tls = false ∧ c'.meta = ServerMeta.new)
    ∧ (∀ (c : Conn) (line : Line) (s' : List Char),
      streamRecvLine (c.stream.length + 1) c.stream = (.ok line, s') →
      badLine line = true →
      ∃ c', c.recvLineC = (.error .ServerUnavailable, c') ∧
        c'.down = true ∧ c'.tls = false ∧ c'.meta = ServerMeta.new)
    ∧ (∀ (c : Conn) (line : Line) (s' : List Char),
      streamRecvLine (c.stream.length + 1) c.stream = (.ok line, s') →
      badLine line = false →
      c.recvLineC = (.ok line, c.consumeTo s')) := by
  refine ⟨?_, ?_, ?_⟩
  · intro c lines s' h hbad
    refine ⟨(c.consumeTo s').terminate, ?_, rfl, rfl, rfl⟩
    unfold Conn.recvReplyC
    rw [h]
    simp only [hbad, if_true]
  · intro c line s' h hbad
    refine ⟨(c.consumeTo s').terminate, ?_, rfl, rfl, rfl⟩
    unfold Conn.recvLineC
    rw [h]
    simp only [hbad, if_true]
  · intro c line s' h hbad
    unfold Conn.recvLineC
    rw [h]
    simp only [hbad]
    rfl

/-- Witness for C3 (amended): a single-line 421 reply read through
`recv_line` terminates with `ServerUnavailable`, and a two-line reply read
through `recv_reply` whose second line is 421 terminates as well. -/
theorem reply_421_554_terminates_witness :
    (∃ c',
      ({ name := "me".data, meta := ServerMeta.new, tls := false,
         down := false, stream := "421 bye\r\n".data,
         trace := [] } : Conn).recvLineC =
        (.error .ServerUnavailable, c') ∧
      c'.down = true ∧ c'.tls = false ∧ c'.meta = ServerMeta.new)
    ∧ (∃ c',
      ({ name := "me".data, meta := ServerMeta.new, tls := false,
         down := false, stream := "250-a\r\n421 b\r\n".data,
         trace := [] } : Conn).recvReplyC =
        (.error .ServerUnavailable, c') ∧
      c'.down = true ∧ c'.tls = false ∧ c'.meta = ServerMeta.new) := by
  constructor
  · exact reply_421_554_terminates.2.1 _ (Line.mk .ServiceNotAvailable "bye".data true)
      [] (by decide) (by decide)
  · exact reply_421_554_terminates.1 _
      [Line.mk .Okay "a".data false, Line.mk .ServiceNotAvailable "b".data true]
      [] (by decide) (by decide)

/-- Counterexample for C3 as stated: a multi-line reply whose SECOND line
carries 421 is read by `recv_line` (the whole reply is consumed from the
stream), yet the call returns the first line successfully and the session is
not terminated: the socket stays up and the capability record is
untouched. -/
theorem recv_line_ignores_continuation_421 :
    (({ name := "me".data,
        meta := { ServerMeta.new with pipelining := Support.Supported },
        tls := false, down := false, stream := "250-a\r\n421 b\r\n".data,
        trace := [] } : Conn).recvLineC).1 = .ok (Line.mk .Okay "a".data false)
    ∧ (({ name := "me".data,
          meta := { ServerMeta.new with pipelining := Support.Supported },
          tls := false, down := false, stream := "250-a\r\n421 b\r\n".data,
          trace := [] } : Conn).recvLineC).2.down = false
    ∧ (({ name := "me".data,
          meta := { ServerMeta.new with pipelining := Support.Supported },
          tls := false, down := false, stream := "250-a\r\n421 b\r\n".data,
          trace := [] } : Conn).recvLineC).2.meta.pipelining = Support.Supported
    ∧ (({ name := "me".data,
          meta := { ServerMeta.new with pipelining := Support.Supported },
          tls := false, down := false, stream := "250-a\r\n421 b\r\n".data,
          trace := [] } : Conn).recvLineC).2.stream = [] := by
  refine ⟨by decide, by decide, by decide, by decide⟩

/-- The mechanism tokens an EHLO line advertises: the words after a leading
`AUTH` word in the uppercased text, and none otherwise. -/
def authWords (t : List Char) : List (List Char) :=
  match splitSp (upperText t) with
  | [] => []
  | w0 :: ws => if w0 = "AUTH".data then ws else []

/-- Field-wise characterization of the handshake's `AUTH` word loop. -/
lemma authApply_spec (ws : List (List Char)) : ∀ m : ServerMeta,
    ((authApply m ws).auth_plain = .Supported ↔
      (m.auth_plain = .Supported ∨ "PLAIN".data ∈ ws))
    ∧ ((authApply m ws).auth_login = .Supported ↔
      (m.auth_login = .Supported ∨ "LOGIN".data ∈ ws))
    ∧ (authApply m ws).tls = m.tls
    ∧ (authApply m ws).pipelining = m.pipelining
    ∧ (authApply m ws).eight_bit_mime = m.eight_bit_mime := by
  induction ws with
  | nil => intro m; simp [authApply]
  | cons w ws ih =>
    intro m
    by_cases hp : w = "PLAIN".data
    · subst hp
      have hstep : authApply m ("PLAIN".data :: ws) =
          authApply { m with auth_plain := Support.Supported } ws := by
        simp [authApply]
      obtain ⟨h1, h2, h3, h4, h5⟩ := ih { m with auth_plain := Support.Supported }
      rw [hstep, h1, h2]
      refine ⟨by simp, ?_, h3, h4, h5⟩
      have hne : ("LOGIN".data : List Char) ≠ "PLAIN".data := by decide
      simp [List.mem_cons, hne]
    · by_cases hl : w = "LOGIN".data
      · subst hl
        have hstep : authApply m ("LOGIN".data :: ws) =
            authApply { m with auth_login := Support.Supported } ws := by
          simp [authApply]
        obtain ⟨h1, h2, h3, h4, h5⟩ :=
          ih { m with auth_login := Support.Supported }
        rw [hstep, h1, h2]
        have hne : ("PLAIN".data : List Char) ≠ "LOGIN".data := by decide
        refine ⟨by simp [List.mem_cons, hne], by simp, h3, h4, h5⟩
      · have hstep : authApply m (w :: ws) = authApply m ws := by
          simp [authApply, hp, hl]
        obtain ⟨h1, h2, h3, h4, h5⟩ := ih m
        rw [hstep, h1, h2]
        have hp' : ("PLAIN".data : List Char) ≠ w := fun h => hp h.symm
        have hl' : ("LOGIN".data : List Char) ≠ w := fun h => hl h.symm
        refine ⟨by simp [List.mem_cons, hp'], by simp [List.mem_cons, hl'],
          h3, h4, h5⟩

/-- Field-wise characterization of one EHLO line's effect on the capability
record. -/
lemma ehloLineApply_spec (m : ServerMeta) (t : List Char) :
    ((ehloLineApply m t).tls = .Supported ↔
      (m.tls = .Supported ∨ upperText t = "STARTTLS".data))
    ∧ ((ehloLineApply m t).eight_bit_mime = .Supported ↔
      (m.eight_bit_mime = .Supported ∨ upperText t = "8BITMIME".data))
    ∧ ((ehloLineApply m t).pipelining = .Supported ↔
      (m.pipelining = .Supported ∨ upperText t = "PIPELINING".data))
    ∧ ((ehloLineApply m t).auth_plain = .Supported ↔
      (m.auth_plain = .Supported ∨ "PLAIN".data ∈ authWords t))
    ∧ ((ehloLineApply m t).auth_login = .Supported ↔
      (m.auth_login = .Supported ∨ "LOGIN".data ∈ authWords t)) := by
  have hne12 : ("STARTTLS".data : List Char) ≠ "8BITMIME".data := by decide
  have hne13 : ("STARTTLS".data : List Char) ≠ "PIPELINING".data := by decide
  have hne23 : ("8BITMIME".data : List Char) ≠ "PIPELINING".data := by decide
  by_cases h1 : upperText t = "STARTTLS".data
  · have hstep : ehloLineApply m t = { m with tls := Support.Supported } := by
      simp only [ehloLineApply]
      rw [if_pos h1]
    have hw : authWords t = [] := by
      unfold authWords
      rw [h1]
      decide
    rw [hstep, hw, h1]
    refine ⟨by simp, by simp [hne12], by simp [hne13], by simp, by simp⟩
  · by_cases h2 : upperText t = "8BITMIME".data
    · have hstep : ehloLineApply m t =
          { m with eight_bit_mime := Support.Supported } := by
        simp only [ehloLineApply]
        rw [if_neg h1, if_pos h2]
      have hw : authWords t = [] := by
        unfold authWords
        rw [h2]
        decide
      rw [hstep, hw, h2]
      refine ⟨by simp [Ne.symm hne12], by simp, ?_, by simp, by simp⟩
      simp [hne23]
    · by_cases h3 : upperText t = "PIPELINING".data
      · have hstep : ehloLineApply m t =
            { m with pipelining := Support.Supported } := by
          simp only [ehloLineApply]
          rw [if_neg h1, if_neg h2, if_pos h3]
        have hw : authWords t = [] := by
          unfold authWords
          rw [h3]
          decide
        rw [hstep, hw, h3]
        refine ⟨by simp [Ne.symm hne13], ?_, by simp, by simp, by simp⟩
        simp [Ne.symm hne23]
      · rcases hsp : splitSp (upperText t) with _ | ⟨w0, ws⟩
        · have hstep : ehloLineApply m t = m := by
            simp only [ehloLineApply]
            rw [if_neg h1, if_neg h2, if_neg h3, hsp]
          have hw : authWords t = [] := by unfold authWords; rw [hsp]
          rw [hstep, hw]
          simp [h1, h2, h3]
        · by_cases hw0 : w0 = "AUTH".data
          · have hstep : ehloLineApply m t = authApply m ws := by
              simp only [ehloLineApply]
              rw [if_neg h1, if_neg h2, if_neg h3, hsp]
              simp [hw0]
            have hw : authWords t = ws := by
              unfold authWords
              rw [hsp]
              simp [hw0]
            obtain ⟨ha1, ha2, ha3, ha4, ha5⟩ := authApply_spec ws m
            rw [hstep, hw, ha1, ha2, ha3, ha4, ha5]
            simp [h1, h2, h3]
          · have hstep : ehloLineApply m t = m := by
              simp only [ehloLineApply]
              rw [if_neg h1, if_neg h2, if_neg h3, hsp]
              simp [hw0]
            have hw : authWords t = [] := by
              unfold authWords
              rw [hsp]
              simp [hw0]
            rw [hstep, hw]
            simp [h1, h2, h3]

/-- Regrouping of a one-step unfolding of "some list element satisfies p". -/
lemma or_exists_cons {α : Type} (a : Prop) (p : α → Prop) (x : α)
    (xs : List α) :
    ((a ∨ p x) ∨ ∃ y ∈ xs, p y) ↔ (a ∨ ∃ y ∈ x :: xs, p y) := by
  constructor
  · rintro ((h | h) | ⟨y, hy, hp⟩)
    · exact Or.inl h
    · exact Or.inr ⟨x, List.mem_cons_self x xs, h⟩
    · exact Or.inr ⟨y, List.mem_cons_of_mem x hy, hp⟩
  · rintro (h | ⟨y, hy, hp⟩)
    · exact Or.inl (Or.inl h)
    · rcases List.mem_cons.mp hy with h1 | h1
      · exact Or.inl (Or.inr (h1 ▸ hp))
      · exact Or.inr ⟨y, h1, hp⟩

/-- Field-wise characterization of a successful EHLO reply-line fold: a flag
ends `Supported` iff it started `Supported` or some line of the reply
advertises it. -/
lemma ehloUpdate_ok_spec : ∀ (lines : List Line) (m m' : ServerMeta),
    ehloUpdate lines m = (.ok (), m') →
    ((m'.tls = .Supported ↔
      (m.tls = .Supported ∨ ∃ l ∈ lines, upperText l.text = "STARTTLS".data))
    ∧ (m'.eight_bit_mime = .Supported ↔
      (m.eight_bit_mime = .Supported ∨
        ∃ l ∈ lines, upperText l.text = "8BITMIME".data))
    ∧ (m'.pipelining = .Supported ↔
      (m.pipelining = .Supported ∨
        ∃ l ∈ lines, upperText l.text = "PIPELINING".data))
    ∧ (m'.auth_plain = .Supported ↔
      (m.auth_plain = .Supported ∨ ∃ l ∈ lines, "PLAIN".data ∈ authWords l.text))
    ∧ (m'.auth_login = .Supported ↔
      (m.auth_login = .Supported ∨
        ∃ l ∈ lines, "LOGIN".data ∈ authWords l.text))) := by
  intro lines
  induction lines with
  | nil =>
    intro m m' h
    simp only [ehloUpdate, Prod.mk.injEq] at h
    rw [← h.2]
    simp
  | cons l rest ih =>
    intro m m' h
    simp only [ehloUpdate] at h
    by_cases hc : l.code ≠ StatusCode.Okay
    · rw [if_pos hc] at h
      simp at h
    · rw [if_neg hc] at h
      obtain ⟨g1, g2, g3, g4, g5⟩ := ih (ehloLineApply m l.text) m' h
      obtain ⟨e1, e2, e3, e4, e5⟩ := ehloLineApply_spec m l.text
      rw [e1] at g1
      rw [e2] at g2
      rw [e3] at g3
      rw [e4] at g4
      rw [e5] at g5
      refine ⟨?_, ?_, ?_, ?_, ?_⟩
      · rw [g1]
        exact or_exists_cons _ (fun y => upperText y.text = "STARTTLS".data) l rest
      · rw [g2]
        exact or_exists_cons _ (fun y => upperText y.text = "8BITMIME".data) l rest
      · rw [g3]
        exact or_exists_cons _ (fun y => upperText y.text = "PIPELINING".data) l rest
      · rw [g4]
        exact or_exists_cons _ (fun y => "PLAIN".data ∈ authWords y.text) l rest
      · rw [g5]
        exact or_exists_cons _ (fun y => "LOGIN".data ∈ authWords y.text) l rest

/-- C2 (amended): at the start of each EHLO-response processing only the
`starttls` flag is reset to NotSupported (plus `auth_plain` when the
transport is TLS); `8bitmime`, `pipelining` and `auth_login` keep their
previous values.  Consequently, after the post-STARTTLS handshake the
`starttls` flag reflects only the new response and `auth_plain` only the
post-TLS advertisement, while a `pipelining`, `8bitmime` or `auth_login`
capability observed only in the pre-TLS response remains Supported. -/
theorem handshake_capability_reset (isTls : Bool) (m : ServerMeta)
    (lines : List Line) (m' : ServerMeta)
    (h : handshakeMeta isTls m lines = (.ok (), m')) :
    (m'.tls = .Supported ↔ ∃ l ∈ lines, upperText l.text = "STARTTLS".data)
    ∧ (m'.auth_plain = .Supported ↔
      ((isTls = false ∧ m.auth_plain = .Supported) ∨
        ∃ l ∈ lines, "PLAIN".data ∈ authWords l.text))
    ∧ (m'.eight_bit_mime = .Supported ↔
      (m.eight_bit_mime = .Supported ∨
        ∃ l ∈ lines, upperText l.text = "8BITMIME".data))
    ∧ (m'.pipelining = .Supported ↔
      (m.pipelining = .Supported ∨
        ∃ l ∈ lines, upperText l.text = "PIPELINING".data))
    ∧ (m'.auth_login = .Supported ↔
      (m.auth_login = .Supported ∨
        ∃ l ∈ lines, "LOGIN".data ∈ authWords l.text)) := by
  cases isTls with
  | true =>
    have h' : ehloUpdate lines
        { m with tls := Support.NotSupported,
                 auth_plain := Support.NotSupported } = (.ok (), m') := by
      simpa [handshakeMeta] using h
    obtain ⟨g1, g2, g3, g4, g5⟩ := ehloUpdate_ok_spec lines _ m' h'
    refine ⟨?_, ?_, ?_, ?_, ?_⟩
    · rw [g1]; simp
    · rw [g4]; simp
    · rw [g2]
    · rw [g3]
    · rw [g5]
  | false =>
    have h' : ehloUpdate lines { m with tls := Support.NotSupported } =
        (.ok (), m') := by
      simpa [handshakeMeta] using h
    obtain ⟨g1, g2, g3, g4, g5⟩ := ehloUpdate_ok_spec lines _ m' h'
    refine ⟨?_, ?_, ?_, ?_, ?_⟩
    · rw [g1]; simp
    · rw [g4]; simp
    · rw [g2]
    · rw [g3]
    · rw [g5]

/-- Witness for C2 (amended) at a concrete post-TLS handshake: a pre-TLS
record with `pipelining` Supported, folded over a reply advertising nothing,
keeps `pipelining` Supported while `tls` and `auth_plain` are reset. -/
theorem handshake_capability_reset_witness :
    ∃ m' : ServerMeta,
      handshakeMeta true
        { ServerMeta.new with pipelining := Support.Supported,
                              auth_plain := Support.Supported,
                              tls := Support.Supported }
        [Line.mk .Okay "ok".data true] = (.ok (), m')
      ∧ m'.pipelining = .Supported ∧ m'.tls ≠ .Supported ∧
        m'.auth_plain ≠ .Supported := by
  refine ⟨_, rfl, ?_, ?_, ?_⟩
  · have h := handshake_capability_reset true
      { ServerMeta.new with pipelining := Support.Supported,
                            auth_plain := Support.Supported,
                            tls := Support.Supported }
      [Line.mk .Okay "ok".data true] _ rfl
    exact h.2.2.2.1.mpr (Or.inl (by decide))
  · decide
  · decide

/-- Counterexample for C2 as stated: a full `try_connect` run whose pre-TLS
EHLO advertises `STARTTLS` and `PIPELINING` and whose post-upgrade EHLO
advertises nothing still ends with `pipelining = Supported`: the
capability observed only before the upgrade leaks through the second
handshake (the claim demands every flag be reset to NotSupported at the
start of each EHLO response). -/
theorem pre_tls_pipelining_leaks :
    ((({ name := "me".data, meta := ServerMeta.new, tls := false,
         down := false,
         stream := "220 hi\r\n250-x\r\n250-STARTTLS\r\n250 PIPELINING\r\n220 go\r\n250 ok\r\n".data,
         trace := [] } : Conn)).tryConnect
      ⟨"user".data, "pass".data⟩).1 = .ok ()
    ∧ ((({ name := "me".data, meta := ServerMeta.new, tls := false,
           down := false,
           stream := "220 hi\r\n250-x\r\n250-STARTTLS\r\n250 PIPELINING\r\n220 go\r\n250 ok\r\n".data,
           trace := [] } : Conn)).tryConnect
        ⟨"user".data, "pass".data⟩).2.tls = true
    ∧ ((({ name := "me".data, meta := ServerMeta.new, tls := false,
           down := false,
           stream := "220 hi\r\n250-x\r\n250-STARTTLS\r\n250 PIPELINING\r\n220 go\r\n250 ok\r\n".data,
           trace := [] } : Conn)).tryConnect
        ⟨"user".data, "pass".data⟩).2.meta.pipelining = Support.Supported := by
  refine ⟨by decide, by decide, by decide⟩

/-! ### Stream-consumption lemmas

The parser only ever pops bytes from the front of the stream, and a
successful `recv_line` consumes at least one byte.  These facts drive the
wire-trace shape of the transaction modes. -/

lemma recvDigit_len (s : List Char) (n : Char) :
    (recvDigit s n).2.1.length ≤ s.length := by
  rcases s with _ | ⟨b, rest⟩
  · simp [recvDigit, recvChar]
  · simp only [recvDigit, recvChar]
    split <;> simp

lemma recvText_len : ∀ (fuel : Nat) (s : List Char) (n : Char),
    (recvText fuel s n).2.1.length ≤ s.length := by
  intro fuel
  induction fuel with
  | zero => intro s n; simp [recvText]
  | succ fuel ih =>
    intro s n
    rcases s with _ | ⟨b, rest⟩
    · simp [recvText, recvChar]
    · simp only [recvText, recvChar]
      split

      · simp
      · rcases hr : recvText fuel rest b with ⟨res2, s2, n2⟩
        have hlen := ih rest b
        rw [hr] at hlen
        simp only at hlen
        match res2 with
        | .error e => simpa using Nat.le_succ_of_le hlen
        | .ok text => simpa using Nat.le_succ_of_le hlen

lemma expectEnd_len (s : List Char) (n : Char) :
    (expectEnd s n).2.1.length ≤ s.length := by
  rcases s with _ | ⟨b, rest⟩
  · simp [expectEnd, expectChar, recvChar]
  · simp only [expectEnd, expectChar, recvChar]
    by_cases h1 : n = '\r'
    · rw [if_pos h1]
      simp only []
      by_cases h2 : b = '\n'
      · rw [if_pos h2]; simp
      · rw [if_neg h2]; simp
    · rw [if_neg h1]; simp

lemma recvLine_cons_len (fuel : Nat) (a : Char) (rest : List Char) (n : Char) :
    (recvLine fuel (a :: rest) n).2.1.length ≤ rest.length := by
  simp only [recvLine, recvChar]
  rcases hd1 : recvDigit rest a with ⟨r1, s2, n2⟩
  have l1 : s2.length ≤ rest.length := by
    have := recvDigit_len rest a
    rw [hd1] at this
    exact this
  match r1 with
  | .error e => simpa using l1
  | .ok d1 =>
    simp only []
    rcases hd2 : recvDigit s2 n2 with ⟨r2, s3, n3⟩
    have l2 : s3.length ≤ rest.length := le_trans (by
      have := recvDigit_len s2 n2
      rw [hd2] at this
      exact this) l1
    match r2 with
    | .error e => simpa using l2
    | .ok d2 =>
      simp only []
      rcases hd3 : recvDigit s3 n3 with ⟨r3, s4, n4⟩
      have l3 : s4.length ≤ rest.length := le_trans (by
        have := recvDigit_len s3 n3
        rw [hd3] at this
        exact this) l2
      match r3 with
      | .error e => simpa using l3
      | .ok d3 =>
        simp only []
        split
        · rcases s4 with _ | ⟨b4, r4⟩
          · simp
          · simp only []
            rcases hT : recvText fuel r4 b4 with ⟨rT, s6, n6⟩
            have l5 : s6.length ≤ rest.length := by
              have h6 := recvText_len fuel r4 b4
              rw [hT] at h6
              simp only [] at h6
              simp only [List.length_cons] at l3
              omega
            match rT with
            | .error e => simpa using l5
            | .ok text =>
              simp only []
              split <;> simpa using l5
        · rcases hE : expectEnd s4 n4 with ⟨rE, s5, n5⟩
          have l6 : s5.length ≤ rest.length := le_trans (by
            have := expectEnd_len s4 n4
            rw [hE] at this
            exact this) l3
          match rE with
          | .error e => simpa using l6
          | .ok _ =>
            simp only []
            split <;> simpa using l6

lemma recvLine_nil (fuel : Nat) (n : Char) :
    recvLine fuel [] n = (.error .Network, [], n) := rfl

lemma recvLine_len (fuel : Nat) (s : List Char) (n : Char) :
    (recvLine fuel s n).2.1.length ≤ s.length := by
  rcases s with _ | ⟨a, rest⟩
  · simp [recvLine_nil]
  · exact le_trans (recvLine_cons_len fuel a rest n) (by simp)

lemma recvReply_len : ∀ (fuel : Nat) (s : List Char) (n : Char),
    (recvReply fuel s n).2.1.length ≤ s.length := by
  intro fuel
  induction fuel with
  | zero => intro s n; simp [recvReply]
  | succ fuel ih =>
    intro s n
    simp only [recvReply]
    rcases hl : recvLine (fuel + 1) s n with ⟨res, s1, n1⟩
    have l1 : s1.length ≤ s.length := by
      have := recvLine_len (fuel + 1) s n
      rw [hl] at this
      exact this
    match res with
    | .error e => simpa using l1
    | .ok line =>
      simp only []
      split
      · simpa using l1
      · rcases hr : recvReply fuel s1 n1 with ⟨res2, s2, n2⟩
        have l2 : s2.length ≤ s1.length := by
          have := ih s1 n1
          rw [hr] at this
          exact this
        match res2 with
        | .error e => simpa using le_trans l2 l1
        | .ok lines => simpa using le_trans l2 l1

/-- A successful `stream_recv_line` consumes at least one byte. -/
lemma streamRecvLine_ok_lt (fuel : Nat) (s : List Char) (line : Line)
    (s' : List Char) (h : streamRecvLine fuel s = (.ok line, s')) :
    s'.length < s.length := by
  unfold streamRecvLine at h
  rcases s with _ | ⟨a, rest⟩
  · rw [recvLine_nil] at h
    simp at h
  · rcases hl : recvLine fuel (a :: rest) '\x00' with ⟨res, s1, n1⟩
    rw [hl] at h
    have l1 : s1.length ≤ rest.length := by
      have := recvLine_cons_len fuel a rest '\x00'
      rw [hl] at this
      exact this
    match res with
    | .error e => simp at h
    | .ok line1 =>
      simp only [] at h
      by_cases hlast : line1.last
      · rw [if_pos hlast] at h
        simp only [Prod.mk.injEq, Except.ok.injEq] at h
        rw [← h.2]
        simp only [List.length_cons]
        omega
      · rw [if_neg hlast] at h
        rcases hr : recvReply fuel s1 n1 with ⟨res2, s2, n2⟩
        rw [hr] at h
        have l2 : s2.length ≤ s1.length := by
          have := recvReply_len fuel s1 n1
          rw [hr] at this
          exact this
        match res2 with
        | .error e => simp at h
        | .ok lines =>
          simp only [Prod.mk.injEq, Except.ok.injEq] at h
          rw [← h.2]
          simp only [List.length_cons]
          omega

/-- `recv_line` extends the wire trace by a possibly-empty block of `srv`
events. -/
lemma recvLineC_trace_shape (c : Conn) :
    ∃ g, (c.recvLineC).2.trace = c.trace ++ g ∧
      (g = [] ∨ ∃ b g', g = IOEv.srv b :: g') := by
  unfold Conn.recvLineC
  rcases hs : streamRecvLine (c.stream.length + 1) c.stream with ⟨res, s'⟩
  refine ⟨(c.stream.take (c.stream.length - s'.length)).map IOEv.srv, ?_, ?_⟩
  · match res with
    | .error e => simp [Conn.consumeTo]
    | .ok line =>
      simp only []
      split
      · simp [Conn.terminate, Conn.consumeTo]
      · simp [Conn.consumeTo]
  · rcases htake : c.stream.take (c.stream.length - s'.length) with _ | ⟨b, r⟩
    · left; simp
    · right; exact ⟨b, r.map IOEv.srv, by simp⟩

/-- A successful `recv_line` extends the wire trace by at least one `srv`
event. -/
lemma recvLineC_ok_srv (c : Conn) (line : Line) (c' : Conn)
    (h : c.recvLineC = (.ok line, c')) :
    ∃ b g', c'.trace = c.trace ++ IOEv.srv b :: g' := by
  unfold Conn.recvLineC at h
  rcases hs : streamRecvLine (c.stream.length + 1) c.stream with ⟨res, s'⟩
  rw [hs] at h
  match res with
  | .error e => simp at h
  | .ok line1 =>
    simp only [] at h
    have hlt : s'.length < c.stream.length := streamRecvLine_ok_lt _ _ _ _ hs
    by_cases hbad : badLine line1
    · rw [if_pos (by simp [hbad])] at h
      simp at h
    · rw [if_neg (by simp [hbad])] at h
      simp only [Prod.mk.injEq, Except.ok.injEq] at h
      obtain ⟨hline, hc'⟩ := h
      rcases hstream : c.stream with _ | ⟨b, rest⟩
      · rw [hstream] at hlt
        simp at hlt
      · obtain ⟨k', hk⟩ : ∃ k', c.stream.length - s'.length = k' + 1 :=
          ⟨c.stream.length - s'.length - 1, by omega⟩
        refine ⟨b, (rest.take k').map IOEv.srv, ?_⟩
        rw [← hc']
        have hk2 : rest.length + 1 - s'.length = k' + 1 := by
          rw [hstream] at hk
          simpa using hk
        simp [Conn.consumeTo, hstream, hk2, List.take_succ_cons]

/-- The reply handlers return the connection produced by `recv_line`. -/
lemma replyMailFrom_conn (c : Conn) (fa : List Char) :
    (c.replyMailFrom fa).2 = (c.recvLineC).2 := by
  unfold Conn.replyMailFrom
  rcases hres : c.recvLineC with ⟨res, c1⟩
  match res with
  | .error e => rfl
  | .ok line =>
    simp only []
    cases line.code <;> rfl

lemma replyMailTo_conn (c : Conn) (ta : List Char) :
    (c.replyMailTo ta).2 = (c.recvLineC).2 := by
  unfold Conn.replyMailTo
  rcases hres : c.recvLineC with ⟨res, c1⟩
  match res with
  | .error e => rfl
  | .ok line =>
    simp only []
    cases line.code <;> rfl

lemma replyMailData_conn (c : Conn) :
    (c.replyMailData).2 = (c.recvLineC).2 := by
  unfold Conn.replyMailData
  rcases hres : c.recvLineC with ⟨res, c1⟩
  match res with
  | .error e => rfl
  | .ok line =>
    simp only []
    split <;> rfl

lemma replyMailPayload_conn (c : Conn) :
    (c.replyMailPayload).2 = (c.recvLineC).2 := by
  unfold Conn.replyMailPayload
  rcases hres : c.recvLineC with ⟨res, c1⟩
  match res with
  | .error e => rfl
  | .ok line =>
    simp only []
    cases line.code <;> rfl

/-- A successful `reply_mail_from` comes from a successful `recv_line` on
the same connection. -/
lemma replyMailFrom_ok (c : Conn) (fa : List Char) (c' : Conn)
    (h : c.replyMailFrom fa = (.ok (), c')) :
    ∃ line, c.recvLineC = (.ok line, c') := by
  unfold Conn.replyMailFrom at h
  rcases hres : c.recvLineC with ⟨res, c1⟩
  rw [hres] at h
  match res with
  | .error e => simp at h
  | .ok line =>
    simp only [] at h
    cases hcode : line.code <;> rw [hcode] at h <;>
      first
        | (simp at h
           done)
        | exact ⟨line, by rw [show c1 = c' from by simpa using h]⟩

/-- The writes of `command_mail_payload` only append to the wire trace. -/
lemma commandMailPayload_trace (c : Conn) (m : Mail) :
    ∃ g, (c.commandMailPayload m).trace = c.trace ++ g := by
  unfold Conn.commandMailPayload
  split
  · exact ⟨[.cli m.to_bytes, .cli "\r\n.\r\n".data], by simp [Conn.write]⟩
  · refine ⟨[.cli ("From: ".data ++ m.from_name.getD [] ++ "<".data ++
      m.fromAddr ++ ">\r\n".data),
      .cli ("To: ".data ++ m.to_name.getD [] ++ "<".data ++ m.toAddr ++
        ">\r\n".data),
      .cli ("Subject: ".data ++ m.subject ++ "\r\n".data),
      .cli "\r\n".data, .cli (finalText m.text), .cli "\r\n.\r\n".data], ?_⟩
    simp [Conn.write]

lemma replyMailTo_trace (c : Conn) (ta : List Char) :
    ∃ g, (c.replyMailTo ta).2.trace = c.trace ++ g := by
  rw [replyMailTo_conn]
  obtain ⟨g, hg, _⟩ := recvLineC_trace_shape c
  exact ⟨g, hg⟩

lemma replyMailData_trace (c : Conn) :
    ∃ g, (c.replyMailData).2.trace = c.trace ++ g := by
  rw [replyMailData_conn]
  obtain ⟨g, hg, _⟩ := recvLineC_trace_shape c
  exact ⟨g, hg⟩

lemma replyMailPayload_trace (c : Conn) :
    ∃ g, (c.replyMailPayload).2.trace = c.trace ++ g := by
  rw [replyMailPayload_conn]
  obtain ⟨g, hg, _⟩ := recvLineC_trace_shape c
  exact ⟨g, hg⟩

/-- Modelled from the spec: the claimed transaction-mode selector
`pipeline_enabled && pipelining Supported`.  The source `Config`
(`src/lib.rs` lines 243-248) carries only `retries`, `timeout`, `parallel`
and `max_channels` — it has no pipeline flag — and `try_send_mail`
(`src/connection/mod.rs` line 346) consults only the capability. -/
def specPipelineSelection (pipelineEnabled : Bool) (m : ServerMeta) : Bool :=
  pipelineEnabled && (m.pipelining == Support.Supported)

/-- C5 (amended): after the pre-checks pass, the transaction is pipelined iff
the `pipelining` capability is `Supported` — the configuration plays no part
in the selection.  Pipelined: `MAIL FROM`, `RCPT TO` and `DATA` are written
back-to-back before any server byte is read.  Serial: after `MAIL FROM` no
further client write happens before the first server byte of its reply (the
trace continues with a read, or stops on a transport error). -/
theorem pipeline_mode_selection (c : Conn) (m : Mail)
    (hfrom : checkAddress m.fromAddr = .ok ())
    (hto : checkAddress m.toAddr = .ok ())
    (hatt : ¬(m.attachments.length > 0 ∧
      c.meta.eight_bit_mime ≠ Support.Supported)) :
    (c.meta.pipelining = Support.Supported →
      ∃ g, (c.trySendMail m).2.trace = c.trace ++
        IOEv.cli (cmdToString (.MailFrom m.fromAddr)) ::
        IOEv.cli (cmdToString (.RcptTo m.toAddr)) ::
        IOEv.cli (cmdToString .Data) :: g ∧
        (g = [] ∨ ∃ b g', g = IOEv.srv b :: g'))
    ∧ (c.meta.pipelining ≠ Support.Supported →
      ∃ g, (c.trySendMail m).2.trace = c.trace ++
        IOEv.cli (cmdToString (.MailFrom m.fromAddr)) :: g ∧
        (g = [] ∨ ∃ b g', g = IOEv.srv b :: g')) := by
  constructor
  · intro hpipe
    have hmain : c.trySendMail m =
        (match (((c.commandMailFrom m.fromAddr).commandMailTo
            m.toAddr).commandMailData).replyMailFrom m.fromAddr with
        | (.error e, c4) => (.error e, c4)
        | (.ok (), c4) =>
          match c4.replyMailTo m.toAddr with
          | (.error e, c5) => (.error e, c5)
          | (.ok (), c5) =>
            match c5.replyMailData with
            | (.error e, c6) => (.error e, c6)
            | (.ok (), c6) => (c6.commandMailPayload m).replyMailPayload) := by
      unfold Conn.trySendMail
      rw [hfrom, hto]
      simp only []
      rw [if_neg hatt, if_pos hpipe]
    rw [hmain]
    have hc3trace :
        (((c.commandMailFrom m.fromAddr).commandMailTo
          m.toAddr).commandMailData).trace = c.trace ++
          [IOEv.cli (cmdToString (.MailFrom m.fromAddr)),
           IOEv.cli (cmdToString (.RcptTo m.toAddr)),
           IOEv.cli (cmdToString .Data)] := by
      simp [Conn.commandMailFrom, Conn.commandMailTo, Conn.commandMailData,
        Conn.send, Conn.write]
    rcases h4 : (((c.commandMailFrom m.fromAddr).commandMailTo
        m.toAddr).commandMailData).replyMailFrom m.fromAddr with ⟨res4, c4⟩
    match res4 with
    | .error e =>
      simp only []
      have hc4 : c4 =
          ((((c.commandMailFrom m.fromAddr).commandMailTo
            m.toAddr).commandMailData).recvLineC).2 := by
        have := replyMailFrom_conn (((c.commandMailFrom m.fromAddr).commandMailTo
          m.toAddr).commandMailData) m.fromAddr
        rw [h4] at this
        exact this
      obtain ⟨g0, hg0, hshape⟩ := recvLineC_trace_shape
        (((c.commandMailFrom m.fromAddr).commandMailTo
          m.toAddr).commandMailData)
      refine ⟨g0, ?_, hshape⟩
      rw [hc4, hg0, hc3trace]
      simp
    | .ok () =>
      simp only []
      obtain ⟨line, hrecv⟩ := replyMailFrom_ok _ m.fromAddr c4 h4
      obtain ⟨b, g', hsrv⟩ := recvLineC_ok_srv _ line c4 hrecv
      rw [hc3trace] at hsrv
      rcases h5 : c4.replyMailTo m.toAddr with ⟨res5, c5⟩
      have hc5 : ∃ g2, c5.trace = c4.trace ++ g2 := by
        obtain ⟨g2, hg2⟩ := replyMailTo_trace c4 m.toAddr
        rw [h5] at hg2
        exact ⟨g2, hg2⟩
      obtain ⟨g2, hg2⟩ := hc5
      match res5 with
      | .error e =>
        refine ⟨IOEv.srv b :: (g' ++ g2), ?_, Or.inr ⟨b, g' ++ g2, rfl⟩⟩
        simp only []
        rw [hg2, hsrv]
        simp
      | .ok () =>
        simp only []
        rcases h6 : c5.replyMailData with ⟨res6, c6⟩
        have hc6 : ∃ g3, c6.trace = c5.trace ++ g3 := by
          obtain ⟨g3, hg3⟩ := replyMailData_trace c5
          rw [h6] at hg3
          exact ⟨g3, hg3⟩
        obtain ⟨g3, hg3⟩ := hc6
        match res6 with
        | .error e =>
          refine ⟨IOEv.srv b :: (g' ++ g2 ++ g3), ?_,
            Or.inr ⟨b, g' ++ g2 ++ g3, rfl⟩⟩
          simp only []
          rw [hg3, hg2, hsrv]
          simp
        | .ok () =>
          simp only []
          obtain ⟨g4, hg4⟩ := commandMailPayload_trace c6 m
          obtain ⟨g5, hg5⟩ := replyMailPayload_trace (c6.commandMailPayload m)
          refine ⟨IOEv.srv b :: (g' ++ g2 ++ g3 ++ g4 ++ g5), ?_,
            Or.inr ⟨b, g' ++ g2 ++ g3 ++ g4 ++ g5, rfl⟩⟩
          rw [hg5, hg4, hg3, hg2, hsrv]
          simp
  · intro hpipe
    have hmain : c.trySendMail m =
        (match (c.commandMailFrom m.fromAddr).replyMailFrom m.fromAddr with
        | (.error e, c2) => (.error e, c2)
        | (.ok (), c2) =>
          match (c2.commandMailTo m.toAddr).replyMailTo m.toAddr with
          | (.error e, c4) => (.error e, c4)
          | (.ok (), c4) =>
            match (c4.commandMailData).replyMailData with
            | (.error e, c6) => (.error e, c6)
            | (.ok (), c6) => (c6.commandMailPayload m).replyMailPayload) := by
      unfold Conn.trySendMail
      rw [hfrom, hto]
      simp only []
      rw [if_neg hatt, if_neg hpipe]
    rw [hmain]
    have hc1trace : (c.commandMailFrom m.fromAddr).trace = c.trace ++
        [IOEv.cli (cmdToString (.MailFrom m.fromAddr))] := by
      simp [Conn.commandMailFrom, Conn.send, Conn.write]
    rcases h2 : (c.commandMailFrom m.fromAddr).replyMailFrom m.fromAddr with
      ⟨res2, c2⟩
    match res2 with
    | .error e =>
      simp only []
      have hc2 : c2 = ((c.commandMailFrom m.fromAddr).recvLineC).2 := by
        have := replyMailFrom_conn (c.commandMailFrom m.fromAddr) m.fromAddr
        rw [h2] at this
        exact this
      obtain ⟨g0, hg0, hshape⟩ := recvLineC_trace_shape
        (c.commandMailFrom m.fromAddr)
      refine ⟨g0, ?_, hshape⟩
      rw [hc2, hg0, hc1trace]
      simp
    | .ok () =>
      simp only []
      obtain ⟨line, hrecv⟩ := replyMailFrom_ok _ m.fromAddr c2 h2
      obtain ⟨b, g', hsrv⟩ := recvLineC_ok_srv _ line c2 hrecv
      rw [hc1trace] at hsrv
      rcases h4 : (c2.commandMailTo m.toAddr).replyMailTo m.toAddr with
        ⟨res4, c4⟩
      have hc4 : ∃ g2, c4.trace = c2.trace ++ g2 := by
        obtain ⟨g2, hg2⟩ := replyMailTo_trace (c2.commandMailTo m.toAddr) m.toAddr
        rw [h4] at hg2
        exact ⟨IOEv.cli (cmdToString (.RcptTo m.toAddr)) :: g2, by
          rw [hg2]
          simp [Conn.commandMailTo, Conn.send, Conn.write]⟩
      obtain ⟨g2, hg2⟩ := hc4
      match res4 with
      | .error e =>
        refine ⟨IOEv.srv b :: (g' ++ g2), ?_, Or.inr ⟨b, g' ++ g2, rfl⟩⟩
        simp only []
        rw [hg2, hsrv]
        simp
      | .ok () =>
        simp only []
        rcases h6 : (c4.commandMailData).replyMailData with ⟨res6, c6⟩
        have hc6 : ∃ g3, c6.trace = c4.trace ++ g3 := by
          obtain ⟨g3, hg3⟩ := replyMailData_trace (c4.commandMailData)
          rw [h6] at hg3
          exact ⟨IOEv.cli (cmdToString .Data) :: g3, by
            rw [hg3]
            simp [Conn.commandMailData, Conn.send, Conn.write]⟩
        obtain ⟨g3, hg3⟩ := hc6
        match res6 with
        | .error e =>
          refine ⟨IOEv.srv b :: (g' ++ g2 ++ g3), ?_,
            Or.inr ⟨b, g' ++ g2 ++ g3, rfl⟩⟩
          simp only []
          rw [hg3, hg2, hsrv]
          simp
        | .ok () =>
          simp only []
          obtain ⟨g4, hg4⟩ := commandMailPayload_trace c6 m
          obtain ⟨g5, hg5⟩ := replyMailPayload_trace (c6.commandMailPayload m)
          refine ⟨IOEv.srv b :: (g' ++ g2 ++ g3 ++ g4 ++ g5), ?_,
            Or.inr ⟨b, g' ++ g2 ++ g3 ++ g4 ++ g5, rfl⟩⟩
          rw [hg5, hg4, hg3, hg2, hsrv]
          simp

/-- Witness for C5 (amended): on a concrete success script, with
`pipelining` Supported the three commands are written back-to-back before
any read, and with `pipelining` Unknown the trace after `MAIL FROM` starts
with a server byte. -/
theorem pipeline_mode_selection_witness :
    (∃ g, (({ name := "me".data,
              meta := { ServerMeta.new with pipelining := Support.Supported },
              tls := false, down := false,
              stream := "250 ok\r\n250 ok\r\n354 go\r\n250 ok\r\n".data,
              trace := [] } : Conn).trySendMail
        ⟨"s".data, "a@b.io".data, none, "c@d.io".data, none, "hi".data,
         []⟩).2.trace = ([] : List IOEv) ++
        IOEv.cli (cmdToString (.MailFrom "a@b.io".data)) ::
        IOEv.cli (cmdToString (.RcptTo "c@d.io".data)) ::
        IOEv.cli (cmdToString .Data) :: g ∧
        (g = [] ∨ ∃ b g', g = IOEv.srv b :: g'))
    ∧ (∃ g, (({ name := "me".data, meta := ServerMeta.new, tls := false,
                down := false,
                stream := "250 ok\r\n250 ok\r\n354 go\r\n250 ok\r\n".data,
                trace := [] } : Conn).trySendMail
        ⟨"s".data, "a@b.io".data, none, "c@d.io".data, none, "hi".data,
         []⟩).2.trace = ([] : List IOEv) ++
        IOEv.cli (cmdToString (.MailFrom "a@b.io".data)) :: g ∧
        (g = [] ∨ ∃ b g', g = IOEv.srv b :: g')) := by
  constructor
  · exact (pipeline_mode_selection _ _ (by decide) (by decide)
      (by simp)).1 (by decide)
  · exact (pipeline_mode_selection _ _ (by decide) (by decide)
      (by simp)).2 (by decide)

/-- Counterexample for C5 as stated: the spec's selector with the pipeline
flag disabled chooses serial mode, yet the code — whose `Config` has no
pipeline flag at all — pipelines whenever the capability is Supported: on a
concrete run the three commands go out back-to-back before any reply byte
is read, and the transaction succeeds. -/
theorem pipeline_ignores_config_flag :
    specPipelineSelection false
      { ServerMeta.new with pipelining := Support.Supported } = false
    ∧ (({ name := "me".data,
          meta := { ServerMeta.new with pipelining := Support.Supported },
          tls := false, down := false,
          stream := "250 ok\r\n250 ok\r\n354 go\r\n250 ok\r\n".data,
          trace := [] } : Conn).trySendMail
        ⟨"s".data, "a@b.io".data, none, "c@d.io".data, none, "hi".data,
         []⟩).2.trace.take 3 =
      [IOEv.cli (cmdToString (.MailFrom "a@b.io".data)),
       IOEv.cli (cmdToString (.RcptTo "c@d.io".data)),
       IOEv.cli (cmdToString .Data)]
    ∧ (({ name := "me".data,
          meta := { ServerMeta.new with pipelining := Support.Supported },
          tls := false, down := false,
          stream := "250 ok\r\n250 ok\r\n354 go\r\n250 ok\r\n".data,
          trace := [] } : Conn).trySendMail
        ⟨"s".data, "a@b.io".data, none, "c@d.io".data, none, "hi".data,
         []⟩).1 = .ok () := by
  refine ⟨by decide, by decide, by decide⟩

end Smtp
